import Mathlib

/-!
# PQClean: acceptance harness, constant-time primitives and the 953x3 codec

A shallow embedding of

* `src/test/crypto_sign/functest.c` (the signature acceptance harness),
* `src/crypto_kem/ntrulpr953/avx2/crypto_encode_953x3.h` (codec constants),
* `src/crypto_kem/kyber1024/avx2/verify.h` (constant-time compare / select).

Bytes (`unsigned char`, `uint8_t`) are natural numbers below 256, a byte array
is a `List Nat`, and a C pointer into an array is the array together with an
offset.  `int` return codes are `Int`, `unsigned long long` lengths are `Nat`.
-/

namespace PQClean

/-! ## `crypto_encode_953x3.h`: constants of the codec instantiation -/

/-- Constant `#define PQCLEAN_NTRULPR953_AVX2_crypto_encode_953x3_STRBYTES 239`. -/
def PQCLEAN_NTRULPR953_AVX2_crypto_encode_953x3_STRBYTES : Nat := 239

/-- Constant `#define PQCLEAN_NTRULPR953_AVX2_crypto_encode_953x3_ITEMS 953`. -/
def PQCLEAN_NTRULPR953_AVX2_crypto_encode_953x3_ITEMS : Nat := 953

/-- Constant `#define PQCLEAN_NTRULPR953_AVX2_crypto_encode_953x3_ITEMBYTES 1`. -/
def PQCLEAN_NTRULPR953_AVX2_crypto_encode_953x3_ITEMBYTES : Nat := 1

/-- The radix of the 953x3 instantiation (the `x3` of its name). -/
def RADIX : Nat := 3

/-! ## `functest.c`: sentinels -/

/-- Constant `#define NTESTS 15`. -/
def NTESTS : Nat := 15

/-- Constant `#define MLEN 32`. -/
def MLEN : Nat := 32

/-- The array `const unsigned char canary[8]`. -/
def canary : List Nat := [0x01, 0x23, 0x45, 0x67, 0x89, 0xAB, 0xCD, 0xEF]

/-- The loop of `write_canary`: `n` iterations remain, the index is `i`;
each one performs `d[i] = canary[i]`, where `d` points at `buf + off`. -/
def write_canary_loop (off : Nat) : Nat → Nat → List Nat → List Nat
  | 0, _, buf => buf
  | n + 1, i, buf => write_canary_loop off n (i + 1) (buf.set (off + i) (canary.getD i 0))

/-- Function `static void write_canary(unsigned char *d)` with `d = buf + off`;
the result is the array after the call. -/
def write_canary (buf : List Nat) (off : Nat) : List Nat :=
  write_canary_loop off 8 0 buf

/-- The loop of `check_canary`: `n` iterations remain, the index is `i`;
the first `d[i] != canary[i]` returns `-1`, falling out of the loop returns `0`. -/
def check_canary_loop (buf : List Nat) (off : Nat) : Nat → Nat → Int
  | 0, _ => 0
  | n + 1, i =>
    if buf.getD (off + i) 0 ≠ canary.getD i 0 then -1
    else check_canary_loop buf off n (i + 1)

/-- Function `static int check_canary(const unsigned char *d)` with `d = buf + off`. -/
def check_canary (buf : List Nat) (off : Nat) : Int :=
  check_canary_loop buf off 8 0

/-! ## `functest.c`: the scheme under test

`api.h` and `randombytes.h` are external to the harness.  The scheme is a
parameter: its three size constants and its functions, each an arbitrary
function of a hidden state `W` (the scheme's own state, the randomness
source) and of the arrays it is handed pointers into.  A function returns the
new contents of every array it was handed, so it may write anywhere in them,
the sentinel bytes included. -/

/-- What `crypto_sign_keypair(pk, sk)` leaves behind. -/
structure KeypairRet (W : Type) where
  world : W
  pk : List Nat
  sk : List Nat
  rc : Int

/-- What `crypto_sign(sm, &smlen, m, mlen, sk)` leaves behind. -/
structure SignRet (W : Type) where
  world : W
  sm : List Nat
  smlen : Nat
  m : List Nat
  sk : List Nat
  rc : Int

/-- What `crypto_sign_open(m, &mlen, sm, smlen, pk)` leaves behind.  Both call
sites of the harness pass the same pointer for `m` and `sm` ("By relying on
m == sm ..."), so there is one array for the two. -/
structure OpenRet (W : Type) where
  world : W
  sm : List Nat
  mlen : Nat
  pk : List Nat
  rc : Int

/-- The scheme behind `api.h` together with `randombytes`.  Every pointer
argument is an array and an offset into it. -/
structure Scheme (W : Type) where
  CRYPTO_PUBLICKEYBYTES : Nat
  CRYPTO_SECRETKEYBYTES : Nat
  CRYPTO_BYTES : Nat
  /-- Call `crypto_sign_keypair(pk, sk)`. -/
  crypto_sign_keypair : W → List Nat → Nat → List Nat → Nat → KeypairRet W
  /-- Call `crypto_sign(sm, &smlen, m, mlen, sk)`; `smlen` is passed with its current value -/
  crypto_sign : W → List Nat → Nat → Nat → List Nat → Nat → Nat → List Nat → Nat → SignRet W
  /-- Call `crypto_sign_open(m, &mlen, sm, smlen, pk)` with `m == sm` -/
  crypto_sign_open : W → List Nat → Nat → Nat → Nat → List Nat → Nat → OpenRet W
  /-- Call `randombytes(buf, n)`: the new hidden state and the new array -/
  randombytes : W → List Nat → Nat → Nat → W × List Nat

/-- The local variables of `test_sign`. -/
structure SignLocals where
  pk : List Nat
  sk : List Nat
  sm : List Nat
  m : List Nat
  mlen : Nat
  smlen : Nat
  deriving DecidableEq

/-- The scheme calls `test_sign` makes, with their scalar arguments. -/
inductive Call where
  | keypair
  | sign (mlen : Nat)
  | sign_open (smlen : Nat)
  deriving DecidableEq

/-- One scheme call as observed by `test_sign`: the loop index, the call, its
return code, and the hidden state and the locals right before (`wpre`, `pre`)
and right after (`wpost`, `post`) it. -/
structure Event (W : Type) where
  iter : Nat
  call : Call
  rc : Int
  wpre : W
  pre : SignLocals
  wpost : W
  post : SignLocals

/-- The outcome of `test_sign`: its return value, the hidden state it leaves,
and the calls it made, in order. -/
structure SignRun (W : Type) where
  ret : Int
  world : W
  trace : List (Event W)

/-- The eight `check_canary` calls of `test_sign`, or-ed together as in the
source: true when some sentinel is reported overwritten. -/
def canary_overwritten {W : Type} (S : Scheme W) (l : SignLocals) : Bool :=
  (check_canary l.pk 0 != 0) || (check_canary l.pk (S.CRYPTO_PUBLICKEYBYTES + 16 - 8) != 0) ||
  (check_canary l.sk 0 != 0) || (check_canary l.sk (S.CRYPTO_SECRETKEYBYTES + 16 - 8) != 0) ||
  (check_canary l.sm 0 != 0) || (check_canary l.sm (MLEN + S.CRYPTO_BYTES + 16 - 8) != 0) ||
  (check_canary l.m 0 != 0) || (check_canary l.m (MLEN + 16 - 8) != 0)

/-- The body of the `for` loop of `test_sign` at index `i`.  The first
component is `some r` when the body executes `return r`, and `none` when it
runs to its end. -/
def test_sign_body {W : Type} (S : Scheme W) (i : Nat) (w : W) (l : SignLocals) :
    Option Int × W × SignLocals × List (Event W) :=
  -- RETURNS_ZERO(crypto_sign_keypair(pk + 8, sk + 8));
  let r1 := S.crypto_sign_keypair w l.pk 8 l.sk 8
  let l1 : SignLocals := { l with pk := r1.pk, sk := r1.sk }
  let e1 : Event W := ⟨i, Call.keypair, r1.rc, w, l, r1.world, l1⟩
  if r1.rc ≠ 0 then (some (-1), r1.world, l1, [e1]) else
  -- randombytes(m + 8, MLEN);
  let r2 := S.randombytes r1.world l1.m 8 MLEN
  let l2 : SignLocals := { l1 with m := r2.2 }
  -- RETURNS_ZERO(crypto_sign(sm + 8, &smlen, m + 8, MLEN, sk + 8));
  let r3 := S.crypto_sign r2.1 l2.sm 8 l2.smlen l2.m 8 MLEN l2.sk 8
  let l3 : SignLocals := { l2 with sm := r3.sm, smlen := r3.smlen, m := r3.m, sk := r3.sk }
  let e3 : Event W := ⟨i, Call.sign MLEN, r3.rc, r2.1, l2, r3.world, l3⟩
  if r3.rc ≠ 0 then (some (-1), r3.world, l3, [e1, e3]) else
  -- if ((returncode = crypto_sign_open(sm + 8, &mlen, sm + 8, smlen, pk + 8)) != 0)
  let r4 := S.crypto_sign_open r3.world l3.sm 8 l3.mlen l3.smlen l3.pk 8
  let l4 : SignLocals := { l3 with sm := r4.sm, mlen := r4.mlen, pk := r4.pk }
  let e4 : Event W := ⟨i, Call.sign_open l3.smlen, r4.rc, r3.world, l3, r4.world, l4⟩
  if r4.rc ≠ 0 then (some 1, r4.world, l4, [e1, e3, e4]) else
  -- if (check_canary(pk) || ... || check_canary(m + sizeof(m) - 8))
  if canary_overwritten S l4 then (some 1, r4.world, l4, [e1, e3, e4]) else
  (none, r4.world, l4, [e1, e3, e4])

/-- The `for (i = 0; i < NTESTS; i++)` loop of `test_sign` with `n` iterations
remaining at index `i`, followed by the final `return 0`. -/
def test_sign_loop {W : Type} (S : Scheme W) : Nat → Nat → W → SignLocals → SignRun W
  | 0, _, w, _ => ⟨0, w, []⟩
  | n + 1, i, w, l =>
    match test_sign_body S i w l with
    | (some r, w1, _, ev) => ⟨r, w1, ev⟩
    | (none, w1, l1, ev) =>
      let rest := test_sign_loop S n (i + 1) w1 l1
      ⟨rest.ret, rest.world, ev ++ rest.trace⟩

/-- Function `static int test_sign(void)`.  `l` holds the indeterminate contents the
locals have on entry; the arrays are declared with 16 bytes more than the
scheme needs and the eight sentinels are written first. -/
def test_sign {W : Type} (S : Scheme W) (w : W) (l : SignLocals) : SignRun W :=
  let pk := write_canary l.pk 0
  let pk := write_canary pk (S.CRYPTO_PUBLICKEYBYTES + 16 - 8)
  let sk := write_canary l.sk 0
  let sk := write_canary sk (S.CRYPTO_SECRETKEYBYTES + 16 - 8)
  let sm := write_canary l.sm 0
  let sm := write_canary sm (MLEN + S.CRYPTO_BYTES + 16 - 8)
  let m := write_canary l.m 0
  let m := write_canary m (MLEN + 16 - 8)
  test_sign_loop S NTESTS 0 w { l with pk := pk, sk := sk, sm := sm, m := m }

/-- The local variables of `test_wrong_pk`. -/
structure WrongPkLocals where
  pk : List Nat
  pk2 : List Nat
  sk : List Nat
  sm : List Nat
  m : List Nat
  mlen : Nat
  smlen : Nat
  deriving DecidableEq

/-- The body of the `for` loop of `test_wrong_pk`: `some r` for `return r`,
`none` when the body runs to its end. -/
def test_wrong_pk_body {W : Type} (S : Scheme W) (w : W) (l : WrongPkLocals) :
    Option Int × W × WrongPkLocals :=
  -- RETURNS_ZERO(crypto_sign_keypair(pk2, sk));
  let r0 := S.crypto_sign_keypair w l.pk2 0 l.sk 0
  let l0 : WrongPkLocals := { l with pk2 := r0.pk, sk := r0.sk }
  if r0.rc ≠ 0 then (some (-1), r0.world, l0) else
  -- RETURNS_ZERO(crypto_sign_keypair(pk, sk));
  let r1 := S.crypto_sign_keypair r0.world l0.pk 0 l0.sk 0
  let l1 : WrongPkLocals := { l0 with pk := r1.pk, sk := r1.sk }
  if r1.rc ≠ 0 then (some (-1), r1.world, l1) else
  -- randombytes(m, MLEN);
  let r2 := S.randombytes r1.world l1.m 0 MLEN
  let l2 : WrongPkLocals := { l1 with m := r2.2 }
  -- RETURNS_ZERO(crypto_sign(sm, &smlen, m, MLEN, sk));
  let r3 := S.crypto_sign r2.1 l2.sm 0 l2.smlen l2.m 0 MLEN l2.sk 0
  let l3 : WrongPkLocals := { l2 with sm := r3.sm, smlen := r3.smlen, m := r3.m, sk := r3.sk }
  if r3.rc ≠ 0 then (some (-1), r3.world, l3) else
  -- if (!(returncode = crypto_sign_open(sm, &mlen, sm, smlen, pk2)))
  let r4 := S.crypto_sign_open r3.world l3.sm 0 l3.mlen l3.smlen l3.pk2 0
  let l4 : WrongPkLocals := { l3 with sm := r4.sm, mlen := r4.mlen, pk2 := r4.pk }
  if r4.rc = 0 then (some 1, r4.world, l4) else
  (none, r4.world, l4)

/-- The `for (i = 0; i < NTESTS; i++)` loop of `test_wrong_pk` with `n`
iterations remaining, followed by the final `return 0`; the result is the
return value and the hidden state left behind. -/
def test_wrong_pk_loop {W : Type} (S : Scheme W) : Nat → W → WrongPkLocals → Int × W
  | 0, w, _ => (0, w)
  | n + 1, w, l =>
    match test_wrong_pk_body S w l with
    | (some r, w1, _) => (r, w1)
    | (none, w1, l1) => test_wrong_pk_loop S n w1 l1

/-- Function `static int test_wrong_pk(void)`; `l` holds the indeterminate contents of
the locals on entry. -/
def test_wrong_pk {W : Type} (S : Scheme W) (w : W) (l : WrongPkLocals) : Int × W :=
  test_wrong_pk_loop S NTESTS w l

/-- Function `int main(void)`: `result = 0; result += test_sign(); result += test_wrong_pk();` -/
def main {W : Type} (S : Scheme W) (w : W) (l1 : SignLocals) (l2 : WrongPkLocals) : Int :=
  let result : Int := 0
  let r1 := test_sign S w l1
  let result := result + r1.ret
  let r2 := test_wrong_pk S r1.world l2
  let result := result + r2.1
  result

/-! ## `functest.c`: vocabulary for the harness theorems -/

/-- The eight bytes of `buf` starting at offset `off`. -/
def sentinel_at (buf : List Nat) (off : Nat) : List Nat :=
  (buf.drop off).take 8

/-- All eight sentinels of `test_sign` hold the fixed pattern: the eight bytes
before and the eight bytes after each of the `pk`, `sk`, `sm` and `m` areas
handed to the scheme (which start at offset 8 of their arrays). -/
def sentinels_intact {W : Type} (S : Scheme W) (l : SignLocals) : Prop :=
  sentinel_at l.pk 0 = canary ∧ sentinel_at l.pk (8 + S.CRYPTO_PUBLICKEYBYTES) = canary ∧
  sentinel_at l.sk 0 = canary ∧ sentinel_at l.sk (8 + S.CRYPTO_SECRETKEYBYTES) = canary ∧
  sentinel_at l.sm 0 = canary ∧ sentinel_at l.sm (8 + (MLEN + S.CRYPTO_BYTES)) = canary ∧
  sentinel_at l.m 0 = canary ∧ sentinel_at l.m (8 + MLEN) = canary

instance {W : Type} (S : Scheme W) (l : SignLocals) : Decidable (sentinels_intact S l) := by
  unfold sentinels_intact; infer_instance

/-- True for the `crypto_sign_open` calls. -/
def Call.isOpen : Call → Bool
  | Call.sign_open _ => true
  | _ => false

/-- An observed call passed the harness: it returned 0 and, when it is the
`crypto_sign_open` call (the one followed by the sentinel check), all eight
sentinels held the pattern at its return. -/
def Event.passed {W : Type} (S : Scheme W) (e : Event W) : Prop :=
  e.rc = 0 ∧ (e.call.isOpen = true → sentinels_intact S e.post)

/-- The call the source makes at position `j` of the trace, counting from 0:
`crypto_sign_keypair`, then `crypto_sign` on `MLEN` bytes, then
`crypto_sign_open` on the `smlen` that `crypto_sign` stored. -/
def Event.call_at {W : Type} (j : Nat) (e : Event W) : Prop :=
  (j % 3 = 0 → e.call = Call.keypair) ∧
  (j % 3 = 1 → e.call = Call.sign MLEN) ∧
  (j % 3 = 2 → e.call = Call.sign_open e.pre.smlen)

/-- The message handed to `crypto_sign` in a `sign` event: `MLEN` bytes at `m + 8`. -/
def Event.signed_message {W : Type} (e : Event W) : List Nat :=
  (e.pre.m.drop 8).take MLEN

/-- The message `crypto_sign_open` left behind in an `open` event: the
reported `mlen` bytes at `sm + 8`. -/
def Event.opened_message {W : Type} (e : Event W) : List Nat :=
  (e.post.sm.drop 8).take e.post.mlen

/-- The event records a call of the scheme's own function: its return code,
the hidden state and the arrays after it are what the function of `S` named by
`e.call` returns on the hidden state and the locals before it, with the
arguments of the source (`pk + 8`, `sk + 8`, `sm + 8`, `m + 8`, `&smlen`,
`&mlen`). -/
def Event.is_call {W : Type} (S : Scheme W) (e : Event W) : Prop :=
  match e.call with
  | Call.keypair =>
    e.rc = (S.crypto_sign_keypair e.wpre e.pre.pk 8 e.pre.sk 8).rc ∧
    e.wpost = (S.crypto_sign_keypair e.wpre e.pre.pk 8 e.pre.sk 8).world ∧
    e.post = { e.pre with
      pk := (S.crypto_sign_keypair e.wpre e.pre.pk 8 e.pre.sk 8).pk,
      sk := (S.crypto_sign_keypair e.wpre e.pre.pk 8 e.pre.sk 8).sk }
  | Call.sign mlen =>
    e.rc = (S.crypto_sign e.wpre e.pre.sm 8 e.pre.smlen e.pre.m 8 mlen e.pre.sk 8).rc ∧
    e.wpost = (S.crypto_sign e.wpre e.pre.sm 8 e.pre.smlen e.pre.m 8 mlen e.pre.sk 8).world ∧
    e.post = { e.pre with
      sm := (S.crypto_sign e.wpre e.pre.sm 8 e.pre.smlen e.pre.m 8 mlen e.pre.sk 8).sm,
      smlen := (S.crypto_sign e.wpre e.pre.sm 8 e.pre.smlen e.pre.m 8 mlen e.pre.sk 8).smlen,
      m := (S.crypto_sign e.wpre e.pre.sm 8 e.pre.smlen e.pre.m 8 mlen e.pre.sk 8).m,
      sk := (S.crypto_sign e.wpre e.pre.sm 8 e.pre.smlen e.pre.m 8 mlen e.pre.sk 8).sk }
  | Call.sign_open smlen =>
    e.rc = (S.crypto_sign_open e.wpre e.pre.sm 8 e.pre.mlen smlen e.pre.pk 8).rc ∧
    e.wpost = (S.crypto_sign_open e.wpre e.pre.sm 8 e.pre.mlen smlen e.pre.pk 8).world ∧
    e.post = { e.pre with
      sm := (S.crypto_sign_open e.wpre e.pre.sm 8 e.pre.mlen smlen e.pre.pk 8).sm,
      mlen := (S.crypto_sign_open e.wpre e.pre.sm 8 e.pre.mlen smlen e.pre.pk 8).mlen,
      pk := (S.crypto_sign_open e.wpre e.pre.sm 8 e.pre.mlen smlen e.pre.pk 8).pk }

/-- The event `e` starts where the event `prev` ended: a `crypto_sign` call
starts from the state `randombytes(m + 8, MLEN)` makes of it, every other call
starts from exactly that state. -/
def Event.follows {W : Type} (S : Scheme W) (prev e : Event W) : Prop :=
  match e.call with
  | Call.sign _ =>
    e.wpre = (S.randombytes prev.wpost prev.post.m 8 MLEN).1 ∧
    e.pre = { prev.post with m := (S.randombytes prev.wpost prev.post.m 8 MLEN).2 }
  | _ => e.wpre = prev.wpost ∧ e.pre = prev.post

/-- The locals of `test_sign` after the eight `write_canary` calls: a sentinel
at offset 0 and one right behind the area handed to the scheme, in each of the
four arrays. -/
def locals_with_sentinels {W : Type} (S : Scheme W) (l : SignLocals) : SignLocals :=
  { l with
    pk := write_canary (write_canary l.pk 0) (8 + S.CRYPTO_PUBLICKEYBYTES),
    sk := write_canary (write_canary l.sk 0) (8 + S.CRYPTO_SECRETKEYBYTES),
    sm := write_canary (write_canary l.sm 0) (8 + (MLEN + S.CRYPTO_BYTES)),
    m := write_canary (write_canary l.m 0) (8 + MLEN) }

/-- The trace `T` is a run of the scheme `S` from the hidden state `w` and the
locals `l`: its first call starts from `w` and `l`, every event is a call of
the function of `S` it names, and every call starts where the one before it
ended. -/
def genuine_trace {W : Type} (S : Scheme W) (w : W) (l : SignLocals)
    (T : List (Event W)) : Prop :=
  (∀ e : Event W, T[0]? = some e → e.wpre = w ∧ e.pre = l) ∧
  (∀ (j : Nat) (e : Event W), T[j]? = some e → e.is_call S) ∧
  (∀ (j : Nat) (prev e : Event W), T[j]? = some prev → T[j + 1]? = some e →
    Event.follows S prev e)

/-! ## Concrete schemes

Small schemes used to run the harness.  All of them keep every array at its
length and store bytes only. -/

/-- Store the byte `v` at `buf[off] .. buf[off + n - 1]`. -/
def fill (buf : List Nat) (off : Nat) : Nat → Nat → List Nat
  | 0, _ => buf
  | n + 1, v => fill (buf.set (off + n) v) off n v

/-- Zero-filled locals of `test_sign` for a scheme with the given sizes. -/
def sign_locals_zero (pkb skb sigb : Nat) : SignLocals :=
  ⟨List.replicate (pkb + 16) 0, List.replicate (skb + 16) 0,
   List.replicate (MLEN + sigb + 16) 0, List.replicate (MLEN + 16) 0, 0, 0⟩

/-- Zero-filled locals of `test_wrong_pk` for a scheme with the given sizes. -/
def wrong_pk_locals_zero (pkb skb sigb : Nat) : WrongPkLocals :=
  ⟨List.replicate pkb 0, List.replicate pkb 0, List.replicate skb 0,
   List.replicate (MLEN + sigb) 0, List.replicate MLEN 0, 0, 0⟩

/-- A scheme whose `crypto_sign_open` accepts and reports a message of the
right length, but leaves an all-zero message, whatever was signed.  The
randomness source delivers bytes `0xAA`. -/
def lossy_scheme : Scheme Unit where
  CRYPTO_PUBLICKEYBYTES := 4
  CRYPTO_SECRETKEYBYTES := 4
  CRYPTO_BYTES := 4
  crypto_sign_keypair := fun w pk _ sk _ => ⟨w, pk, sk, 0⟩
  crypto_sign := fun w sm _ _ m _ mlen sk _ => ⟨w, sm, mlen + 4, m, sk, 0⟩
  crypto_sign_open := fun w sm off _ smlen pk _ => ⟨w, fill sm off (smlen - 4) 0, smlen - 4, pk, 0⟩
  randombytes := fun w buf off n => (w, fill buf off n 0xAA)

/-- A scheme whose `crypto_sign_keypair` writes one byte in front of the
public key (into the last byte of the sentinel before it) and whose
`crypto_sign_open` stores `0xEF` there again. -/
def clobber_scheme : Scheme Unit where
  CRYPTO_PUBLICKEYBYTES := 4
  CRYPTO_SECRETKEYBYTES := 4
  CRYPTO_BYTES := 4
  crypto_sign_keypair := fun w pk off sk _ => ⟨w, pk.set (off - 1) 0, sk, 0⟩
  crypto_sign := fun w sm _ _ m _ mlen sk _ => ⟨w, sm, mlen + 4, m, sk, 0⟩
  crypto_sign_open := fun w sm _ _ smlen pk off => ⟨w, sm, smlen - 4, pk.set (off - 1) 0xEF, 0⟩
  randombytes := fun w buf off n => (w, fill buf off n 0xAA)

/-- A scheme whose `crypto_sign_open` rejects every signed message with the
positive return code 1. -/
def positive_open_scheme : Scheme Unit where
  CRYPTO_PUBLICKEYBYTES := 4
  CRYPTO_SECRETKEYBYTES := 4
  CRYPTO_BYTES := 4
  crypto_sign_keypair := fun w pk _ sk _ => ⟨w, pk, sk, 0⟩
  crypto_sign := fun w sm _ _ m _ mlen sk _ => ⟨w, sm, mlen + 4, m, sk, 0⟩
  crypto_sign_open := fun w sm _ mlen _ pk _ => ⟨w, sm, mlen, pk, 1⟩
  randombytes := fun w buf off n => (w, fill buf off n 0xAA)

/-- A scheme with a call counter as hidden state: the very first
`crypto_sign_keypair` call fails with `-1`, all later ones succeed;
`crypto_sign_open` accepts every signed message under every public key. -/
def flaky_scheme : Scheme Nat where
  CRYPTO_PUBLICKEYBYTES := 4
  CRYPTO_SECRETKEYBYTES := 4
  CRYPTO_BYTES := 4
  crypto_sign_keypair := fun w pk _ sk _ => ⟨w + 1, pk, sk, if w = 0 then -1 else 0⟩
  crypto_sign := fun w sm _ _ m _ mlen sk _ => ⟨w, sm, mlen + 4, m, sk, 0⟩
  crypto_sign_open := fun w sm _ _ smlen pk _ => ⟨w, sm, smlen - 4, pk, 0⟩
  randombytes := fun w buf off n => (w, fill buf off n 0xAA)

/-! ## `verify.h`: constant-time compare and select

Only the declarations are at hand; the bodies follow the description of the
two primitives. -/

/-- Modelled from the spec: the loop of `PQCLEAN_KYBER1024_AVX2_verify`, whose
body is missing (only its declaration in `verify.h` is present): "accumulate a
difference indicator (e.g., OR of per-byte XORs) across the full length; no
early return".  `n` iterations remain at index `i`; `r` is the accumulator. -/
def verify_loop (a b : List Nat) : Nat → Nat → Nat → Nat
  | 0, _, r => r
  | n + 1, i, r => verify_loop a b n (i + 1) (r ||| (a.getD i 0 ^^^ b.getD i 0))

/-- Modelled from the spec: `PQCLEAN_KYBER1024_AVX2_verify(a, b, len)`, whose
body is missing; it returns the accumulated difference indicator, so "0 iff
all bytes equal, nonzero otherwise" is left to be proved. -/
def PQCLEAN_KYBER1024_AVX2_verify (a b : List Nat) (len : Nat) : Int :=
  (verify_loop a b len 0 0 : Nat)

/-- Modelled from the spec: the "fixed bitmask derivation (all-zero vs.
all-one bit pattern)" of `PQCLEAN_KYBER1024_AVX2_cmov`, whose body is missing:
the negation of the flag in a byte, `0x00` for 0 and `0xFF` for 1. -/
def cmov_mask (b : Nat) : Nat :=
  (256 - b % 256) % 256

/-- Modelled from the spec: the loop of `PQCLEAN_KYBER1024_AVX2_cmov`, whose
body is missing: "for every byte i,
dst[i] = dst[i] XOR ((dst[i] XOR src[i]) AND mask)".  `n` iterations remain at
index `i`. -/
def cmov_loop (x : List Nat) (mask : Nat) : Nat → Nat → List Nat → List Nat
  | 0, _, r => r
  | n + 1, i, r =>
    cmov_loop x mask n (i + 1)
      (r.set i (r.getD i 0 ^^^ ((r.getD i 0 ^^^ x.getD i 0) &&& mask)))

/-- Modelled from the spec: `PQCLEAN_KYBER1024_AVX2_cmov(r, x, len, b)`, whose
body is missing; the result is the array `r` after the call. -/
def PQCLEAN_KYBER1024_AVX2_cmov (r x : List Nat) (len : Nat) (b : Nat) : List Nat :=
  cmov_loop x (cmov_mask b) len 0 r

/-! ## `crypto_encode_953x3.h`: the codec

Only the declaration of the encoder and its three constants are at hand. -/

/-- Modelled from the spec: helper of the missing codec bodies, the number
whose base-`R` digits are `ds`, "index 0 least significant". -/
def radix_value (R : Nat) : List Nat → Nat
  | [] => 0
  | d :: ds => d + R * radix_value R ds

/-- Modelled from the spec: helper of the missing codec bodies, the `n` least
significant base-`R` digits of `v`, least significant first ("little-endian"). -/
def radix_digits (R : Nat) : Nat → Nat → List Nat
  | 0, _ => []
  | n + 1, v => v % R :: radix_digits R n (v / R)

/-- Modelled from the spec: `PQCLEAN_NTRULPR953_AVX2_crypto_encode_953x3(s, v)`,
whose body is missing (only its declaration is present): "the ... little-endian
byte encoding of the mixed-radix number formed by treating the DigitArray as
base-R digits (index 0 least significant)", "packed into exactly STRBYTES
bytes".  The result is the string `s`. -/
def PQCLEAN_NTRULPR953_AVX2_crypto_encode_953x3 (v : List Nat) : List Nat :=
  radix_digits 256 PQCLEAN_NTRULPR953_AVX2_crypto_encode_953x3_STRBYTES (radix_value RADIX v)

/-- Modelled from the spec: the decoder of the 953x3 instantiation, which is
missing altogether: "the exact inverse" of the encoder, reading the string as
a little-endian number and returning its `ITEMS` base-R digits. -/
def crypto_decode_953x3 (s : List Nat) : List Nat :=
  radix_digits RADIX PQCLEAN_NTRULPR953_AVX2_crypto_encode_953x3_ITEMS (radix_value 256 s)

/-- The digit array of Scenario 4: 953 digits cycling 0, 1, 2. -/
def cycling_digits : List Nat :=
  (List.range PQCLEAN_NTRULPR953_AVX2_crypto_encode_953x3_ITEMS).map (fun i => i % 3)

/-! ## Invariants used in the proofs -/

/-- What one run of the loop body of `test_sign` at index `i` reports: at most
three calls, in source order; when the body runs to its end all three passed;
when it returns, the last call is the first one that did not pass and decides
the return value. -/
def body_ok {W : Type} (S : Scheme W) (i : Nat) (r : Option Int) (ev : List (Event W)) :
    Prop :=
  ev.length ≤ 3 ∧
  (∀ (j : Nat) (e : Event W), ev[j]? = some e → e.iter = i ∧ e.call_at j) ∧
  (r = none → ev.length = 3 ∧ ∀ e ∈ ev, e.passed S) ∧
  (∀ c, r = some c → ∃ init last, ev = init ++ [last] ∧ (∀ e ∈ init, e.passed S) ∧
      ¬ last.passed S ∧ c = if last.call.isOpen then 1 else -1)

/-- What the loop of `test_sign` reports with `n` iterations to go from index
`i`: the same facts as `body_ok`, for the whole trace. -/
def run_ok {W : Type} (S : Scheme W) (n i : Nat) (R : SignRun W) : Prop :=
  R.trace.length ≤ 3 * n ∧
  (∀ (j : Nat) (e : Event W), R.trace[j]? = some e → e.iter = i + j / 3 ∧ e.call_at j) ∧
  (R.ret = 0 ↔ R.trace.length = 3 * n ∧ ∀ e ∈ R.trace, e.passed S) ∧
  (R.ret ≠ 0 → ∃ init last, R.trace = init ++ [last] ∧ (∀ e ∈ init, e.passed S) ∧
      ¬ last.passed S ∧ R.ret = if last.call.isOpen then 1 else -1)

/-- The calls of one run of the loop body of `test_sign` from the hidden state
`w` and the locals `l` are a run of the scheme, and when the body runs to its
end it hands on the state its third call left. -/
def body_genuine {W : Type} (S : Scheme W) (w : W) (l : SignLocals)
    (b : Option Int × W × SignLocals × List (Event W)) : Prop :=
  genuine_trace S w l b.2.2.2 ∧
  (b.1 = none → ∀ e : Event W, b.2.2.2[2]? = some e → e.wpost = b.2.1 ∧ e.post = b.2.2.1)

/-! ## Theorems: sentinels (`write_canary`, `check_canary`) -/

theorem check_canary_loop_cases (buf : List Nat) (off n i : Nat) :
    check_canary_loop buf off n i = 0 ∨ check_canary_loop buf off n i = -1 := by
  induction n generalizing i with
  | zero => left; rfl
  | succ n ih =>
    unfold check_canary_loop
    split
    · right; rfl
    · exact ih (i + 1)

theorem check_canary_loop_eq_zero (buf : List Nat) (off n i : Nat) :
    check_canary_loop buf off n i = 0 ↔
      ∀ j, j < n → buf.getD (off + (i + j)) 0 = canary.getD (i + j) 0 := by
  induction n generalizing i with
  | zero => simp [check_canary_loop]
  | succ n ih =>
    unfold check_canary_loop
    split
    · rename_i hne
      constructor
      · intro h; simp at h
      · intro h; exact absurd (h 0 (Nat.succ_pos n)) (by simpa using hne)
    · rename_i heq
      rw [ih]
      have heq : buf.getD (off + i) 0 = canary.getD i 0 := by simpa using heq
      constructor
      · intro h j hj
        cases j with
        | zero => simpa using heq
        | succ j =>
          have := h j (by omega)
          have e : i + 1 + j = i + (j + 1) := by omega
          rw [e] at this; exact this
      · intro h j hj
        have := h (j + 1) (by omega)
        have e : i + 1 + j = i + (j + 1) := by omega
        rw [e]; exact this

theorem region_eq_canary_iff (buf : List Nat) (off : Nat) :
    sentinel_at buf off = canary ↔
      ∀ j, j < 8 → buf.getD (off + j) 0 = canary.getD j 0 := by
  unfold sentinel_at
  by_cases h : off + 8 ≤ buf.length
  · constructor
    · intro e j hj
      have : ((buf.drop off).take 8)[j]? = canary[j]? := by rw [e]
      rw [List.getElem?_take_of_lt hj, List.getElem?_drop] at this
      simp [List.getD_eq_getElem?_getD, this]
    · intro e
      apply List.ext_getElem?
      intro j
      by_cases hj : j < 8
      · rw [List.getElem?_take_of_lt hj, List.getElem?_drop]
        have h1 := e j hj
        have hb : off + j < buf.length := by omega
        have hc : j < canary.length := by simpa [canary] using hj
        rw [List.getD_eq_getElem?_getD, List.getD_eq_getElem?_getD,
          List.getElem?_eq_getElem hb, List.getElem?_eq_getElem hc] at h1
        rw [List.getElem?_eq_getElem hb, List.getElem?_eq_getElem hc]
        simpa using h1
      · have h1 : ((buf.drop off).take 8).length ≤ j := by
          simp; omega
        have h2 : canary.length ≤ j := by simp [canary]; omega
        rw [List.getElem?_eq_none h1, List.getElem?_eq_none h2]
  · constructor
    · intro e
      have hl : ((buf.drop off).take 8).length = 8 := by rw [e]; rfl
      simp at hl
      omega
    · intro e
      have h7 := e 7 (by omega)
      have hb : buf.length ≤ off + 7 := by omega
      rw [List.getD_eq_getElem?_getD, List.getElem?_eq_none hb] at h7
      simp [canary] at h7

theorem check_canary_eq_zero_iff (buf : List Nat) (off : Nat) :
    check_canary buf off = 0 ↔ sentinel_at buf off = canary := by
  unfold check_canary
  rw [check_canary_loop_eq_zero, region_eq_canary_iff]
  constructor
  · intro h j hj; simpa using h j hj
  · intro h j hj; simpa using h j hj

theorem write_canary_loop_length (off n i : Nat) (buf : List Nat) :
    (write_canary_loop off n i buf).length = buf.length := by
  induction n generalizing i buf with
  | zero => rfl
  | succ n ih => simp [write_canary_loop, ih]

theorem write_canary_loop_getD (off n i : Nat) (buf : List Nat) (k : Nat) :
    (write_canary_loop off n i buf).getD k 0 =
      if off + i ≤ k ∧ k < off + i + n ∧ k < buf.length then canary.getD (k - off) 0
      else buf.getD k 0 := by
  induction n generalizing i buf with
  | zero =>
    have c : ¬ (off + i ≤ k ∧ k < off + i + 0 ∧ k < buf.length) := by omega
    simp only [write_canary_loop, c, if_false]
  | succ n ih =>
    simp only [write_canary_loop]
    rw [ih]
    simp only [List.length_set]
    by_cases hk : k = off + i
    · subst hk
      by_cases hl : off + i < buf.length
      · simp [hl, List.getD_eq_getElem?_getD, List.getElem?_set]
      · have : buf.length ≤ off + i := by omega
        have h2 : ∀ v, (buf.set (off + i) v).length ≤ off + i := by
          intro v; simpa using this
        have c1 : ¬ (off + (i + 1) ≤ off + i ∧ off + i < off + (i + 1) + n ∧
            off + i < buf.length) := by omega
        have c2 : ¬ (off + i ≤ off + i ∧ off + i < off + i + (n + 1) ∧
            off + i < buf.length) := by omega
        rw [if_neg c1, if_neg c2]
        simp only [List.getD_eq_getElem?_getD, List.getElem?_eq_none (h2 _),
          List.getElem?_eq_none this]
    · have hset : (buf.set (off + i) (canary.getD i 0)).getD k 0 = buf.getD k 0 := by
        simp [List.getD_eq_getElem?_getD, List.getElem?_set, Ne.symm hk]
      rw [hset]
      by_cases c : off + (i + 1) ≤ k ∧ k < off + (i + 1) + n ∧ k < buf.length
      · have c2 : off + i ≤ k ∧ k < off + i + (n + 1) ∧ k < buf.length := by omega
        simp only [c, c2, and_self, if_true]
      · have c2 : ¬ (off + i ≤ k ∧ k < off + i + (n + 1) ∧ k < buf.length) := by omega
        simp only [c, c2, if_false]

theorem check_write_canary (buf : List Nat) (off : Nat) (h : off + 8 ≤ buf.length) :
    check_canary (write_canary buf off) off = 0 := by
  unfold check_canary write_canary
  rw [check_canary_loop_eq_zero]
  intro j hj
  rw [write_canary_loop_getD]
  have c : off + 0 ≤ off + (0 + j) ∧ off + (0 + j) < off + 0 + 8 ∧ off + (0 + j) < buf.length := by
    omega
  rw [if_pos c]
  congr 1
  omega

/-- C9: for every 8-byte region `buf[off .. off + 8)`, `check_canary` returns 0
if and only if the region equals the pattern 01 23 45 67 89 AB CD EF and `-1`
otherwise; changing any single byte of a freshly written sentinel is detected;
and `check_canary` returns 0 right after `write_canary`. -/
theorem check_canary_spec (buf : List Nat) (off : Nat) (h : off + 8 ≤ buf.length) :
    canary = [0x01, 0x23, 0x45, 0x67, 0x89, 0xAB, 0xCD, 0xEF] ∧
    (check_canary buf off = 0 ↔ sentinel_at buf off = canary) ∧
    (sentinel_at buf off ≠ canary → check_canary buf off = -1) ∧
    (∀ i v, i < 8 → v ≠ canary.getD i 0 →
      check_canary ((write_canary buf off).set (off + i) v) off = -1) ∧
    check_canary (write_canary buf off) off = 0 := by
  have hne : ∀ b : List Nat, sentinel_at b off ≠ canary → check_canary b off = -1 := by
    intro b hb
    rcases check_canary_loop_cases b off 8 0 with h0 | h1
    · exact absurd ((check_canary_eq_zero_iff b off).1 h0) hb
    · exact h1
  refine ⟨rfl, check_canary_eq_zero_iff buf off, hne buf, ?_, check_write_canary buf off h⟩
  intro i v hi hv
  apply hne
  intro e
  have := (region_eq_canary_iff _ off).1 e i hi
  have hlen : off + i < (write_canary buf off).length := by
    unfold write_canary; rw [write_canary_loop_length]; omega
  rw [List.getD_eq_getElem?_getD, List.getElem?_set_self hlen] at this
  exact hv (by simpa using this)

theorem check_canary_spec_witness :
    0 + 8 ≤ (List.replicate 8 0).length ∧
    (check_canary (List.replicate 8 0) 0 = 0 ↔ sentinel_at (List.replicate 8 0) 0 = canary) ∧
    check_canary (write_canary (List.replicate 8 0) 0) 0 = 0 :=
  ⟨by decide, (check_canary_spec (List.replicate 8 0) 0 (by decide)).2.1,
   (check_canary_spec (List.replicate 8 0) 0 (by decide)).2.2.2.2⟩

/-! ## Theorems: `test_sign`, `test_wrong_pk`, `main` -/

theorem canary_overwritten_eq_false {W : Type} (S : Scheme W) (l : SignLocals) :
    canary_overwritten S l = false ↔ sentinels_intact S l := by
  have e1 : S.CRYPTO_PUBLICKEYBYTES + 16 - 8 = 8 + S.CRYPTO_PUBLICKEYBYTES := by omega
  have e2 : S.CRYPTO_SECRETKEYBYTES + 16 - 8 = 8 + S.CRYPTO_SECRETKEYBYTES := by omega
  have e3 : MLEN + S.CRYPTO_BYTES + 16 - 8 = 8 + (MLEN + S.CRYPTO_BYTES) := by omega
  have e4 : MLEN + 16 - 8 = 8 + MLEN := by omega
  unfold canary_overwritten sentinels_intact
  rw [e1, e2, e3, e4]
  simp only [Bool.or_eq_false_iff, bne_eq_false_iff_eq, check_canary_eq_zero_iff, and_assoc]

theorem test_sign_body_ok {W : Type} (S : Scheme W) (i : Nat) (w : W) (l : SignLocals) :
    body_ok S i (test_sign_body S i w l).1 (test_sign_body S i w l).2.2.2 := by
  unfold body_ok test_sign_body
  simp only []
  split_ifs with h1 h3 h4 h5
  · refine ⟨by simp, ?_, by simp, ?_⟩
    · intro j e hj
      match j, hj with
      | 0, hj => simp at hj; subst hj; simp [Event.call_at]
      | j + 1, hj => simp at hj
    · intro c hc
      refine ⟨[], _, rfl, by simp, ?_, ?_⟩
      · simp [Event.passed, h1]
      · simp at hc; simp [Call.isOpen, hc]
  · have h1 : (S.crypto_sign_keypair w l.pk 8 l.sk 8).rc = 0 := by simpa using h1
    refine ⟨by simp, ?_, by simp, ?_⟩
    · intro j e hj
      match j, hj with
      | 0, hj => simp at hj; subst hj; simp [Event.call_at]
      | 1, hj => simp at hj; subst hj; simp [Event.call_at]
      | j + 2, hj => simp at hj
    · intro c hc
      refine ⟨[_], _, rfl, ?_, ?_, ?_⟩
      · simp [Event.passed, h1, Call.isOpen]
      · simp [Event.passed, h3]
      · simp at hc; simp [Call.isOpen, hc]
  · have h1 : (S.crypto_sign_keypair w l.pk 8 l.sk 8).rc = 0 := by simpa using h1
    have h3 := not_not.1 h3
    refine ⟨by simp, ?_, by simp, ?_⟩
    · intro j e hj
      match j, hj with
      | 0, hj => simp at hj; subst hj; simp [Event.call_at]
      | 1, hj => simp at hj; subst hj; simp [Event.call_at]
      | 2, hj => simp at hj; subst hj; simp [Event.call_at]
      | j + 3, hj => simp at hj
    · intro c hc
      refine ⟨[_, _], _, rfl, ?_, ?_, ?_⟩
      · simp [Event.passed, h1, h3, Call.isOpen]
      · simp [Event.passed, h4]
      · simp at hc; simp [Call.isOpen, hc]
  · have h1 : (S.crypto_sign_keypair w l.pk 8 l.sk 8).rc = 0 := by simpa using h1
    have h3 := not_not.1 h3
    have h4 := not_not.1 h4
    refine ⟨by simp, ?_, by simp, ?_⟩
    · intro j e hj
      match j, hj with
      | 0, hj => simp at hj; subst hj; simp [Event.call_at]
      | 1, hj => simp at hj; subst hj; simp [Event.call_at]
      | 2, hj => simp at hj; subst hj; simp [Event.call_at]
      | j + 3, hj => simp at hj
    · intro c hc
      refine ⟨[_, _], _, rfl, ?_, ?_, ?_⟩
      · simp [Event.passed, h1, h3, Call.isOpen]
      · intro hp
        have := (canary_overwritten_eq_false S _).2 (hp.2 rfl)
        rw [h5] at this
        exact Bool.noConfusion this
      · simp at hc; simp [Call.isOpen, hc]
  · have h1 : (S.crypto_sign_keypair w l.pk 8 l.sk 8).rc = 0 := by simpa using h1
    have h3 := not_not.1 h3
    have h4 := not_not.1 h4
    have h5 := (canary_overwritten_eq_false S _).1 (Bool.eq_false_iff.2 h5)
    refine ⟨by simp, ?_, ?_, by simp⟩
    · intro j e hj
      match j, hj with
      | 0, hj => simp at hj; subst hj; simp [Event.call_at]
      | 1, hj => simp at hj; subst hj; simp [Event.call_at]
      | 2, hj => simp at hj; subst hj; simp [Event.call_at]
      | j + 3, hj => simp at hj
    · intro _
      refine ⟨rfl, ?_⟩
      intro e he
      simp only [List.mem_cons, List.mem_singleton, List.not_mem_nil, or_false] at he
      rcases he with he | he | he
      · subst he; simp [Event.passed, h1, Call.isOpen]
      · subst he; simp [Event.passed, h3, Call.isOpen]
      · subst he; exact ⟨h4, fun _ => h5⟩

theorem call_at_add_three {W : Type} (j : Nat) (e : Event W) :
    e.call_at (j + 3) ↔ e.call_at j := by
  unfold Event.call_at
  have : (j + 3) % 3 = j % 3 := by omega
  rw [this]

theorem test_sign_loop_ok {W : Type} (S : Scheme W) (n i : Nat) (w : W) (l : SignLocals) :
    run_ok S n i (test_sign_loop S n i w l) := by
  induction n generalizing i w l with
  | zero => simp [test_sign_loop, run_ok]
  | succ n ih =>
    have hb := test_sign_body_ok S i w l
    unfold test_sign_loop
    split
    · rename_i r w1 l1 ev heq
      rw [heq] at hb
      dsimp only at hb
      obtain ⟨hlen, hshape, -, hsome⟩ := hb
      obtain ⟨init, last, hev, hinit, hlast, hr⟩ := hsome r rfl
      have hr0 : r ≠ 0 := by
        rw [hr]; split_ifs <;> decide
      refine ⟨by simp only []; omega, ?_, ?_, ?_⟩
      · intro j e hj
        have hj3 : j < 3 := by
          have := (List.getElem?_eq_some_iff.1 hj).1
          simp only [] at this; omega
        have := hshape j e hj
        have hz : j / 3 = 0 := by omega
        rw [hz]; exact this
      · simp only []
        constructor
        · intro h; exact absurd h hr0
        · intro h
          exact absurd (h.2 last (by rw [hev]; simp)) hlast
      · intro _
        exact ⟨init, last, hev, hinit, hlast, hr⟩
    · rename_i w1 l1 ev heq
      rw [heq] at hb
      dsimp only at hb
      obtain ⟨-, hshape, hnone, -⟩ := hb
      obtain ⟨hlen, hpass⟩ := hnone rfl
      obtain ⟨ilen, ishape, izero, inz⟩ := ih (i + 1) w1 l1
      refine ⟨?_, ?_, ?_, ?_⟩
      · simp only [List.length_append]; omega
      · intro j e hj
        simp only [] at hj
        by_cases hj3 : j < 3
        · rw [List.getElem?_append_left (by omega)] at hj
          have := hshape j e hj
          have hz : j / 3 = 0 := by omega
          rw [hz]; exact this
        · rw [List.getElem?_append_right (by omega), hlen] at hj
          have := ishape (j - 3) e hj
          have e1 : i + 1 + (j - 3) / 3 = i + j / 3 := by omega
          have e2 : j = (j - 3) + 3 := by omega
          rw [e1] at this
          refine ⟨this.1, ?_⟩
          rw [e2, call_at_add_three]; exact this.2
      · simp only [List.length_append, List.mem_append]
        rw [izero]
        constructor
        · rintro ⟨h1, h2⟩
          refine ⟨by omega, ?_⟩
          rintro e (he | he)
          · exact hpass e he
          · exact h2 e he
        · rintro ⟨h1, h2⟩
          exact ⟨by omega, fun e he => h2 e (Or.inr he)⟩
      · intro hne
        obtain ⟨init, last, ht, hinit, hlast, hr⟩ := inz hne
        refine ⟨ev ++ init, last, ?_, ?_, hlast, hr⟩
        · simp only []; rw [ht, List.append_assoc]
        · intro e he
          rcases List.mem_append.1 he with he | he
          · exact hpass e he
          · exact hinit e he

theorem test_sign_run_ok {W : Type} (S : Scheme W) (w : W) (l : SignLocals) :
    run_ok S NTESTS 0 (test_sign S w l) := by
  unfold test_sign
  exact test_sign_loop_ok S NTESTS 0 w _

theorem isOpen_of_call_at {W : Type} {j : Nat} {e : Event W} (h : e.call_at j) :
    e.call.isOpen = true ↔ j % 3 = 2 := by
  obtain ⟨h0, h1, h2⟩ := h
  have : j % 3 = 0 ∨ j % 3 = 1 ∨ j % 3 = 2 := by omega
  rcases this with c | c | c
  · rw [h0 c, c]; simp [Call.isOpen]
  · rw [h1 c, c]; simp [Call.isOpen]
  · rw [h2 c, c]; simp [Call.isOpen]

theorem run_ok_zero_iff {W : Type} (S : Scheme W) (R : SignRun W) (h : run_ok S NTESTS 0 R) :
    R.ret = 0 ↔ ∀ i, i < NTESTS → ∃ ek es eo,
      R.trace[3 * i]? = some ek ∧ R.trace[3 * i + 1]? = some es ∧
      R.trace[3 * i + 2]? = some eo ∧
      ek.rc = 0 ∧ es.rc = 0 ∧ eo.rc = 0 ∧ sentinels_intact S eo.post := by
  obtain ⟨hlen, hshape, hzero, -⟩ := h
  rw [hzero]
  constructor
  · rintro ⟨hl, hp⟩ i hi
    have b0 : 3 * i < R.trace.length := by omega
    have b1 : 3 * i + 1 < R.trace.length := by omega
    have b2 : 3 * i + 2 < R.trace.length := by omega
    refine ⟨R.trace[3 * i], R.trace[3 * i + 1], R.trace[3 * i + 2],
      List.getElem?_eq_getElem b0, List.getElem?_eq_getElem b1, List.getElem?_eq_getElem b2,
      (hp _ (List.getElem_mem _)).1, (hp _ (List.getElem_mem _)).1,
      (hp _ (List.getElem_mem _)).1, ?_⟩
    apply (hp _ (List.getElem_mem _)).2
    rw [isOpen_of_call_at (hshape _ _ (List.getElem?_eq_getElem b2)).2]
    omega
  · intro h
    have hl : R.trace.length = 3 * NTESTS := by
      obtain ⟨_, _, eo, -, -, h2, -⟩ := h (NTESTS - 1) (by unfold NTESTS; omega)
      have := (List.getElem?_eq_some_iff.1 h2).1
      unfold NTESTS at this hlen ⊢
      omega
    refine ⟨hl, ?_⟩
    intro e he
    obtain ⟨j, hj, rfl⟩ := List.getElem_of_mem he
    obtain ⟨ek, es, eo, h0, h1, h2, r0, r1, r2, hs⟩ := h (j / 3) (by omega)
    have hje := List.getElem?_eq_getElem hj
    have hc := (hshape _ _ hje).2
    have : j % 3 = 0 ∨ j % 3 = 1 ∨ j % 3 = 2 := by omega
    rcases this with c | c | c
    · have ej : 3 * (j / 3) = j := by omega
      rw [ej, hje] at h0
      cases h0
      exact ⟨r0, fun ho => by rw [isOpen_of_call_at hc] at ho; omega⟩
    · have ej : 3 * (j / 3) + 1 = j := by omega
      rw [ej, hje] at h1
      cases h1
      exact ⟨r1, fun ho => by rw [isOpen_of_call_at hc] at ho; omega⟩
    · have ej : 3 * (j / 3) + 2 = j := by omega
      rw [ej, hje] at h2
      cases h2
      exact ⟨r2, fun _ => hs⟩

theorem test_sign_body_genuine {W : Type} (S : Scheme W) (i : Nat) (w : W) (l : SignLocals) :
    body_genuine S w l (test_sign_body S i w l) := by
  unfold body_genuine genuine_trace test_sign_body
  simp only []
  split_ifs with h1 h3 h4 h5
  · refine ⟨⟨?_, ?_, ?_⟩, by simp⟩
    · intro e he
      simp at he; subst he; exact ⟨rfl, rfl⟩
    · intro j e hj
      match j, hj with
      | 0, hj => simp at hj; subst hj; exact ⟨rfl, rfl, rfl⟩
      | j + 1, hj => simp at hj
    · intro j prev e hp he
      simp at he
  · refine ⟨⟨?_, ?_, ?_⟩, by simp⟩
    · intro e he
      simp at he; subst he; exact ⟨rfl, rfl⟩
    · intro j e hj
      match j, hj with
      | 0, hj => simp at hj; subst hj; exact ⟨rfl, rfl, rfl⟩
      | 1, hj => simp at hj; subst hj; exact ⟨rfl, rfl, rfl⟩
      | j + 2, hj => simp at hj
    · intro j prev e hp he
      match j, hp, he with
      | 0, hp, he => simp at hp he; subst hp; subst he; exact ⟨rfl, rfl⟩
      | j + 1, hp, he => simp at he
  · refine ⟨⟨?_, ?_, ?_⟩, by simp⟩
    · intro e he
      simp at he; subst he; exact ⟨rfl, rfl⟩
    · intro j e hj
      match j, hj with
      | 0, hj => simp at hj; subst hj; exact ⟨rfl, rfl, rfl⟩
      | 1, hj => simp at hj; subst hj; exact ⟨rfl, rfl, rfl⟩
      | 2, hj => simp at hj; subst hj; exact ⟨rfl, rfl, rfl⟩
      | j + 3, hj => simp at hj
    · intro j prev e hp he
      match j, hp, he with
      | 0, hp, he => simp at hp he; subst hp; subst he; exact ⟨rfl, rfl⟩
      | 1, hp, he => simp at hp he; subst hp; subst he; exact ⟨rfl, rfl⟩
      | j + 2, hp, he => simp at he
  · refine ⟨⟨?_, ?_, ?_⟩, by simp⟩
    · intro e he
      simp at he; subst he; exact ⟨rfl, rfl⟩
    · intro j e hj
      match j, hj with
      | 0, hj => simp at hj; subst hj; exact ⟨rfl, rfl, rfl⟩
      | 1, hj => simp at hj; subst hj; exact ⟨rfl, rfl, rfl⟩
      | 2, hj => simp at hj; subst hj; exact ⟨rfl, rfl, rfl⟩
      | j + 3, hj => simp at hj
    · intro j prev e hp he
      match j, hp, he with
      | 0, hp, he => simp at hp he; subst hp; subst he; exact ⟨rfl, rfl⟩
      | 1, hp, he => simp at hp he; subst hp; subst he; exact ⟨rfl, rfl⟩
      | j + 2, hp, he => simp at he
  · refine ⟨⟨?_, ?_, ?_⟩, ?_⟩
    · intro e he
      simp at he; subst he; exact ⟨rfl, rfl⟩
    · intro j e hj
      match j, hj with
      | 0, hj => simp at hj; subst hj; exact ⟨rfl, rfl, rfl⟩
      | 1, hj => simp at hj; subst hj; exact ⟨rfl, rfl, rfl⟩
      | 2, hj => simp at hj; subst hj; exact ⟨rfl, rfl, rfl⟩
      | j + 3, hj => simp at hj
    · intro j prev e hp he
      match j, hp, he with
      | 0, hp, he => simp at hp he; subst hp; subst he; exact ⟨rfl, rfl⟩
      | 1, hp, he => simp at hp he; subst hp; subst he; exact ⟨rfl, rfl⟩
      | j + 2, hp, he => simp at he
    · intro _ e he
      simp at he; subst he; exact ⟨rfl, rfl⟩

theorem test_sign_loop_genuine {W : Type} (S : Scheme W) (n i : Nat) (w : W) (l : SignLocals) :
    genuine_trace S w l (test_sign_loop S n i w l).trace := by
  induction n generalizing i w l with
  | zero =>
    refine ⟨?_, ?_, ?_⟩
    · intro e he; simp [test_sign_loop] at he
    · intro j e he; simp [test_sign_loop] at he
    · intro j prev e hp; simp [test_sign_loop] at hp
  | succ n ih =>
    have hg := test_sign_body_genuine S i w l
    have hb := test_sign_body_ok S i w l
    unfold test_sign_loop
    split
    · rename_i r w1 l1 ev heq
      rw [heq] at hg
      exact hg.1
    · rename_i w1 l1 ev heq
      rw [heq] at hg hb
      dsimp only at hg hb
      obtain ⟨⟨gfirst, gcall, gfol⟩, gend⟩ := hg
      have hlen : ev.length = 3 := (hb.2.2.1 rfl).1
      obtain ⟨ifirst, icall, ifol⟩ := ih (i + 1) w1 l1
      have ishape := (test_sign_loop_ok S n (i + 1) w1 l1).2.1
      refine ⟨?_, ?_, ?_⟩
      · intro e he
        dsimp only at he
        rw [List.getElem?_append_left (by omega)] at he
        exact gfirst e he
      · intro j e he
        dsimp only at he
        by_cases hj : j < 3
        · rw [List.getElem?_append_left (by omega)] at he
          exact gcall j e he
        · rw [List.getElem?_append_right (by omega), hlen] at he
          exact icall _ e he
      · intro j prev e hp he
        dsimp only at hp he
        by_cases hj : j + 1 < 3
        · rw [List.getElem?_append_left (by omega)] at hp he
          exact gfol j prev e hp he
        · by_cases hj2 : j = 2
          · subst hj2
            rw [List.getElem?_append_left (by omega)] at hp
            rw [List.getElem?_append_right (by omega), hlen] at he
            have h0 := ifirst e he
            have hc := (ishape 0 e he).2.1 (by decide)
            have hp2 := gend rfl prev hp
            unfold Event.follows
            rw [hc]
            exact ⟨by rw [h0.1, hp2.1], by rw [h0.2, hp2.2]⟩
          · rw [List.getElem?_append_right (by omega), hlen] at hp he
            have e1 : j + 1 - 3 = (j - 3) + 1 := by omega
            rw [e1] at he
            exact ifol _ prev e hp he

theorem test_sign_trace_genuine {W : Type} (S : Scheme W) (w : W) (l : SignLocals) :
    genuine_trace S w (locals_with_sentinels S l) (test_sign S w l).trace := by
  have e1 : S.CRYPTO_PUBLICKEYBYTES + 16 - 8 = 8 + S.CRYPTO_PUBLICKEYBYTES := by omega
  have e2 : S.CRYPTO_SECRETKEYBYTES + 16 - 8 = 8 + S.CRYPTO_SECRETKEYBYTES := by omega
  have e3 : MLEN + S.CRYPTO_BYTES + 16 - 8 = 8 + (MLEN + S.CRYPTO_BYTES) := by omega
  have e4 : MLEN + 16 - 8 = 8 + MLEN := by omega
  unfold test_sign locals_with_sentinels
  dsimp only
  rw [e1, e2, e3, e4]
  exact test_sign_loop_genuine S NTESTS 0 w _

theorem is_call_sign {W : Type} {S : Scheme W} {e : Event W} {mlen : Nat}
    (hc : e.call = Call.sign mlen) (h : e.is_call S) :
    e.rc = (S.crypto_sign e.wpre e.pre.sm 8 e.pre.smlen e.pre.m 8 mlen e.pre.sk 8).rc ∧
    e.wpost = (S.crypto_sign e.wpre e.pre.sm 8 e.pre.smlen e.pre.m 8 mlen e.pre.sk 8).world ∧
    e.post = { e.pre with
      sm := (S.crypto_sign e.wpre e.pre.sm 8 e.pre.smlen e.pre.m 8 mlen e.pre.sk 8).sm,
      smlen := (S.crypto_sign e.wpre e.pre.sm 8 e.pre.smlen e.pre.m 8 mlen e.pre.sk 8).smlen,
      m := (S.crypto_sign e.wpre e.pre.sm 8 e.pre.smlen e.pre.m 8 mlen e.pre.sk 8).m,
      sk := (S.crypto_sign e.wpre e.pre.sm 8 e.pre.smlen e.pre.m 8 mlen e.pre.sk 8).sk } := by
  unfold Event.is_call at h
  rw [hc] at h
  exact h

theorem is_call_open {W : Type} {S : Scheme W} {e : Event W} {smlen : Nat}
    (hc : e.call = Call.sign_open smlen) (h : e.is_call S) :
    e.rc = (S.crypto_sign_open e.wpre e.pre.sm 8 e.pre.mlen smlen e.pre.pk 8).rc ∧
    e.wpost = (S.crypto_sign_open e.wpre e.pre.sm 8 e.pre.mlen smlen e.pre.pk 8).world ∧
    e.post = { e.pre with
      sm := (S.crypto_sign_open e.wpre e.pre.sm 8 e.pre.mlen smlen e.pre.pk 8).sm,
      mlen := (S.crypto_sign_open e.wpre e.pre.sm 8 e.pre.mlen smlen e.pre.pk 8).mlen,
      pk := (S.crypto_sign_open e.wpre e.pre.sm 8 e.pre.mlen smlen e.pre.pk 8).pk } := by
  unfold Event.is_call at h
  rw [hc] at h
  exact h

theorem follows_sign {W : Type} {S : Scheme W} {prev e : Event W} {mlen : Nat}
    (hc : e.call = Call.sign mlen) (h : Event.follows S prev e) :
    e.wpre = (S.randombytes prev.wpost prev.post.m 8 MLEN).1 ∧
    e.pre = { prev.post with m := (S.randombytes prev.wpost prev.post.m 8 MLEN).2 } := by
  unfold Event.follows at h
  rw [hc] at h
  exact h

theorem follows_open {W : Type} {S : Scheme W} {prev e : Event W} {smlen : Nat}
    (hc : e.call = Call.sign_open smlen) (h : Event.follows S prev e) :
    e.wpre = prev.wpost ∧ e.pre = prev.post := by
  unfold Event.follows at h
  rw [hc] at h
  exact h

/-- C8: for every scheme behaviour, `test_sign` makes at least one and at most
`3 * NTESTS` calls, `NTESTS = 15` cycles keypair / sign / open, each
`crypto_sign` on `MLEN = 32` bytes; the trace is the run of the scheme's own
functions from the initial hidden state and the locals with their sentinels
written (every event is the call of `S` it names, on the state the call before
it left); `test_sign` returns 0 if and only if in each of the 15 iterations the
three calls returned 0 and all eight sentinels held the pattern at the
end-of-iteration check; otherwise the trace ends at the first call that did
not pass, and the result is `-1` when that call is `crypto_sign_keypair` or
`crypto_sign` (nonzero return) and `1` when it is `crypto_sign_open` (nonzero
return, or a sentinel differs). -/
theorem test_sign_result_determined {W : Type} (S : Scheme W) (w : W) (l : SignLocals) :
    NTESTS = 15 ∧ MLEN = 32 ∧
    0 < (test_sign S w l).trace.length ∧
    (test_sign S w l).trace.length ≤ 3 * NTESTS ∧
    genuine_trace S w (locals_with_sentinels S l) (test_sign S w l).trace ∧
    (∀ (j : Nat) (e : Event W), (test_sign S w l).trace[j]? = some e →
      e.iter = j / 3 ∧ e.iter < NTESTS ∧ e.call_at j) ∧
    ((test_sign S w l).ret = 0 ↔ ∀ i, i < NTESTS → ∃ ek es eo,
      (test_sign S w l).trace[3 * i]? = some ek ∧
      (test_sign S w l).trace[3 * i + 1]? = some es ∧
      (test_sign S w l).trace[3 * i + 2]? = some eo ∧
      ek.rc = 0 ∧ es.rc = 0 ∧ eo.rc = 0 ∧ sentinels_intact S eo.post) ∧
    ((test_sign S w l).ret ≠ 0 → ∃ init last,
      (test_sign S w l).trace = init ++ [last] ∧
      (∀ e ∈ init, e.rc = 0 ∧ (e.call.isOpen = true → sentinels_intact S e.post)) ∧
      (((last.call = Call.keypair ∨ last.call = Call.sign MLEN) ∧ last.rc ≠ 0 ∧
          (test_sign S w l).ret = -1) ∨
       (last.call = Call.sign_open last.pre.smlen ∧
          (last.rc ≠ 0 ∨ ¬ sentinels_intact S last.post) ∧
          (test_sign S w l).ret = 1))) := by
  have hok := test_sign_run_ok S w l
  refine ⟨rfl, rfl, ?_, hok.1, test_sign_trace_genuine S w l, ?_, run_ok_zero_iff S _ hok, ?_⟩
  · by_cases hz : (test_sign S w l).ret = 0
    · rw [(hok.2.2.1.1 hz).1]; decide
    · obtain ⟨init, last, ht, -⟩ := hok.2.2.2 hz
      rw [ht]; simp
  · intro j e hj
    have hlt := (List.getElem?_eq_some_iff.1 hj).1
    have := hok.2.1 j e hj
    have hl := hok.1
    rw [Nat.zero_add] at this
    exact ⟨this.1, by rw [this.1]; omega, this.2⟩
  · intro hne
    obtain ⟨init, last, ht, hinit, hlast, hr⟩ := hok.2.2.2 hne
    refine ⟨init, last, ht, hinit, ?_⟩
    have hget : (test_sign S w l).trace[init.length]? = some last := by
      rw [ht]; simp
    have hc := (hok.2.1 _ _ hget).2
    have hio := isOpen_of_call_at hc
    have : init.length % 3 = 0 ∨ init.length % 3 = 1 ∨ init.length % 3 = 2 := by omega
    have hnp : ¬ (last.call.isOpen = true) → last.rc ≠ 0 := by
      intro hn hz
      exact hlast ⟨hz, fun ho => absurd ho hn⟩
    rcases this with c | c | c
    · left
      have hn : ¬ (last.call.isOpen = true) := by rw [hio]; omega
      refine ⟨Or.inl (hc.1 c), hnp hn, ?_⟩
      rw [hr, if_neg hn]
    · left
      have hn : ¬ (last.call.isOpen = true) := by rw [hio]; omega
      refine ⟨Or.inr (hc.2.1 c), hnp hn, ?_⟩
      rw [hr, if_neg hn]
    · right
      have ho : last.call.isOpen = true := hio.2 c
      refine ⟨hc.2.2 c, ?_, by rw [hr, if_pos ho]⟩
      by_cases hz : last.rc = 0
      · right; intro hs; exact hlast ⟨hz, fun _ => hs⟩
      · left; exact hz

theorem lossy_run_ret : (test_sign lossy_scheme () (sign_locals_zero 4 4 4)).ret = 0 := by
  rfl

theorem clobber_run_ret : (test_sign clobber_scheme () (sign_locals_zero 4 4 4)).ret = 0 := by
  rfl

/-- C3, counterexample: with a scheme whose `crypto_sign_open` accepts but
leaves an all-zero message, `test_sign` returns 0 although in iteration 0 the
message left by `crypto_sign_open` (32 bytes `0x00`) differs from the message
handed to `crypto_sign` (32 bytes `0xAA`). -/
theorem test_sign_accepts_wrong_message :
    (test_sign lossy_scheme () (sign_locals_zero 4 4 4)).ret = 0 ∧
    ∃ es eo,
      (test_sign lossy_scheme () (sign_locals_zero 4 4 4)).trace[1]? = some es ∧
      (test_sign lossy_scheme () (sign_locals_zero 4 4 4)).trace[2]? = some eo ∧
      es.iter = 0 ∧ eo.iter = 0 ∧ es.call = Call.sign MLEN ∧ eo.call.isOpen = true ∧
      es.signed_message = List.replicate 32 0xAA ∧
      eo.opened_message = List.replicate 32 0 ∧
      eo.opened_message ≠ es.signed_message := by
  have hs : ∃ es, (test_sign lossy_scheme () (sign_locals_zero 4 4 4)).trace[1]? = some es ∧
      es.iter = 0 ∧ es.call = Call.sign MLEN ∧ es.signed_message = List.replicate 32 0xAA :=
    ⟨_, by rfl, by rfl, by rfl, by rfl⟩
  have ho : ∃ eo, (test_sign lossy_scheme () (sign_locals_zero 4 4 4)).trace[2]? = some eo ∧
      eo.iter = 0 ∧ eo.call.isOpen = true ∧ eo.opened_message = List.replicate 32 0 :=
    ⟨_, by rfl, by rfl, by rfl, by rfl⟩
  obtain ⟨es, s1, s2, s3, s4⟩ := hs
  obtain ⟨eo, o1, o2, o3, o4⟩ := ho
  refine ⟨lossy_run_ret, es, eo, s1, o1, s2, o2, s3, o3, s4, o4, ?_⟩
  rw [s4, o4]
  decide

theorem flaky_run_ret : (test_sign flaky_scheme 0 (sign_locals_zero 4 4 4)).ret = -1 := by
  rfl

theorem test_sign_result_determined_witness :
    ((test_sign lossy_scheme () (sign_locals_zero 4 4 4)).ret = 0 ∧
      ∀ i, i < NTESTS → ∃ ek es eo,
        (test_sign lossy_scheme () (sign_locals_zero 4 4 4)).trace[3 * i]? = some ek ∧
        (test_sign lossy_scheme () (sign_locals_zero 4 4 4)).trace[3 * i + 1]? = some es ∧
        (test_sign lossy_scheme () (sign_locals_zero 4 4 4)).trace[3 * i + 2]? = some eo ∧
        ek.rc = 0 ∧ es.rc = 0 ∧ eo.rc = 0 ∧ sentinels_intact lossy_scheme eo.post) ∧
    genuine_trace flaky_scheme 0 (locals_with_sentinels flaky_scheme (sign_locals_zero 4 4 4))
      (test_sign flaky_scheme 0 (sign_locals_zero 4 4 4)).trace ∧
    (test_sign flaky_scheme 0 (sign_locals_zero 4 4 4)).ret ≠ 0 ∧
    ∃ init last,
      (test_sign flaky_scheme 0 (sign_locals_zero 4 4 4)).trace = init ++ [last] ∧
      (∀ e ∈ init, e.rc = 0 ∧ (e.call.isOpen = true → sentinels_intact flaky_scheme e.post)) ∧
      (((last.call = Call.keypair ∨ last.call = Call.sign MLEN) ∧ last.rc ≠ 0 ∧
          (test_sign flaky_scheme 0 (sign_locals_zero 4 4 4)).ret = -1) ∨
       (last.call = Call.sign_open last.pre.smlen ∧
          (last.rc ≠ 0 ∨ ¬ sentinels_intact flaky_scheme last.post) ∧
          (test_sign flaky_scheme 0 (sign_locals_zero 4 4 4)).ret = 1)) :=
  ⟨⟨lossy_run_ret,
     (test_sign_result_determined lossy_scheme () (sign_locals_zero 4 4 4)).2.2.2.2.2.2.1.1
       lossy_run_ret⟩,
   (test_sign_result_determined flaky_scheme 0 (sign_locals_zero 4 4 4)).2.2.2.2.1,
   by rw [flaky_run_ret]; decide,
   (test_sign_result_determined flaky_scheme 0 (sign_locals_zero 4 4 4)).2.2.2.2.2.2.2
     (by rw [flaky_run_ret]; decide)⟩

/-- C3, amended: if `test_sign` returns 0 then its trace is the run of the
scheme's own functions and in each of its 15 iterations `crypto_sign_keypair`
returned 0, `crypto_sign` was called on the `MLEN` bytes at `m + 8` that
`randombytes` delivered and returned 0, and `crypto_sign_open` was called on
exactly the state `crypto_sign` left (its `sm`, its `smlen`) and returned 0;
nothing is said about the message `crypto_sign_open` leaves. -/
theorem test_sign_zero_open_accepted {W : Type} (S : Scheme W) (w : W) (l : SignLocals)
    (h : (test_sign S w l).ret = 0) :
    genuine_trace S w (locals_with_sentinels S l) (test_sign S w l).trace ∧
    ∀ i, i < NTESTS → ∃ ek es eo,
      (test_sign S w l).trace[3 * i]? = some ek ∧
      (test_sign S w l).trace[3 * i + 1]? = some es ∧
      (test_sign S w l).trace[3 * i + 2]? = some eo ∧
      ek.iter = i ∧ ek.call = Call.keypair ∧ ek.rc = 0 ∧
      es.iter = i ∧ es.call = Call.sign MLEN ∧
      es.wpre = (S.randombytes ek.wpost ek.post.m 8 MLEN).1 ∧
      es.pre = { ek.post with m := (S.randombytes ek.wpost ek.post.m 8 MLEN).2 } ∧
      es.signed_message = (((S.randombytes ek.wpost ek.post.m 8 MLEN).2).drop 8).take MLEN ∧
      es.rc = (S.crypto_sign es.wpre es.pre.sm 8 es.pre.smlen es.pre.m 8 MLEN es.pre.sk 8).rc ∧
      es.post.sm =
        (S.crypto_sign es.wpre es.pre.sm 8 es.pre.smlen es.pre.m 8 MLEN es.pre.sk 8).sm ∧
      es.post.smlen =
        (S.crypto_sign es.wpre es.pre.sm 8 es.pre.smlen es.pre.m 8 MLEN es.pre.sk 8).smlen ∧
      es.rc = 0 ∧
      eo.iter = i ∧ eo.call = Call.sign_open es.post.smlen ∧
      eo.wpre = es.wpost ∧ eo.pre = es.post ∧
      eo.rc = (S.crypto_sign_open es.wpost es.post.sm 8 es.post.mlen es.post.smlen
        es.post.pk 8).rc ∧
      eo.rc = 0 := by
  have hok := test_sign_run_ok S w l
  have hg := test_sign_trace_genuine S w l
  refine ⟨hg, ?_⟩
  intro i hi
  obtain ⟨ek, es, eo, h0, h1, h2, r0, r1, r2, -⟩ := (run_ok_zero_iff S _ hok).1 h i hi
  have s0 := hok.2.1 _ _ h0
  have s1 := hok.2.1 _ _ h1
  have s2 := hok.2.1 _ _ h2
  have c0 : ek.call = Call.keypair := s0.2.1 (by omega)
  have c1 : es.call = Call.sign MLEN := s1.2.2.1 (by omega)
  have c2 : eo.call = Call.sign_open eo.pre.smlen := s2.2.2.2 (by omega)
  have f1 := follows_sign c1 (hg.2.2 _ ek es h0 h1)
  have f2 := follows_open c2 (hg.2.2 _ es eo h1 h2)
  have k1 := is_call_sign c1 (hg.2.1 _ es h1)
  have k2 := is_call_open c2 (hg.2.1 _ eo h2)
  have hm : es.pre.m = (S.randombytes ek.wpost ek.post.m 8 MLEN).2 := by rw [f1.2]
  refine ⟨ek, es, eo, h0, h1, h2, ?_, c0, r0, ?_, c1, f1.1, f1.2, ?_, k1.1, ?_, ?_, r1, ?_, ?_,
    f2.1, f2.2, ?_, r2⟩
  · rw [s0.1]; omega
  · rw [s1.1]; omega
  · unfold Event.signed_message; rw [hm]
  · rw [k1.2.2]
  · rw [k1.2.2]
  · rw [s2.1]; omega
  · rw [c2, f2.2]
  · have := k2.1
    rw [f2.1, f2.2] at this
    exact this

theorem test_sign_zero_open_accepted_witness :
    (test_sign lossy_scheme () (sign_locals_zero 4 4 4)).ret = 0 ∧
    (genuine_trace lossy_scheme () (locals_with_sentinels lossy_scheme (sign_locals_zero 4 4 4)) (test_sign lossy_scheme () (sign_locals_zero 4 4 4)).trace ∧
    ∀ i, i < NTESTS → ∃ ek es eo,
      (test_sign lossy_scheme () (sign_locals_zero 4 4 4)).trace[3 * i]? = some ek ∧
      (test_sign lossy_scheme () (sign_locals_zero 4 4 4)).trace[3 * i + 1]? = some es ∧
      (test_sign lossy_scheme () (sign_locals_zero 4 4 4)).trace[3 * i + 2]? = some eo ∧
      ek.iter = i ∧ ek.call = Call.keypair ∧ ek.rc = 0 ∧
      es.iter = i ∧ es.call = Call.sign MLEN ∧
      es.wpre = (lossy_scheme.randombytes ek.wpost ek.post.m 8 MLEN).1 ∧
      es.pre = { ek.post with m := (lossy_scheme.randombytes ek.wpost ek.post.m 8 MLEN).2 } ∧
      es.signed_message = (((lossy_scheme.randombytes ek.wpost ek.post.m 8 MLEN).2).drop 8).take MLEN ∧
      es.rc = (lossy_scheme.crypto_sign es.wpre es.pre.sm 8 es.pre.smlen es.pre.m 8 MLEN es.pre.sk 8).rc ∧
      es.post.sm =
        (lossy_scheme.crypto_sign es.wpre es.pre.sm 8 es.pre.smlen es.pre.m 8 MLEN es.pre.sk 8).sm ∧
      es.post.smlen =
        (lossy_scheme.crypto_sign es.wpre es.pre.sm 8 es.pre.smlen es.pre.m 8 MLEN es.pre.sk 8).smlen ∧
      es.rc = 0 ∧
      eo.iter = i ∧ eo.call = Call.sign_open es.post.smlen ∧
      eo.wpre = es.wpost ∧ eo.pre = es.post ∧
      eo.rc = (lossy_scheme.crypto_sign_open es.wpost es.post.sm 8 es.post.mlen es.post.smlen
        es.post.pk 8).rc ∧
      eo.rc = 0) :=
  ⟨lossy_run_ret,
   test_sign_zero_open_accepted lossy_scheme () (sign_locals_zero 4 4 4) lossy_run_ret⟩

/-- C4, counterexample: with a scheme whose `crypto_sign_keypair` overwrites
the last byte of the sentinel in front of `pk` and whose `crypto_sign_open`
stores the pattern byte again, `test_sign` returns 0 although the sentinels
differ from the pattern at the return of `crypto_sign_keypair`. -/
theorem test_sign_misses_restored_sentinel :
    (test_sign clobber_scheme () (sign_locals_zero 4 4 4)).ret = 0 ∧
    ∃ ek,
      (test_sign clobber_scheme () (sign_locals_zero 4 4 4)).trace[0]? = some ek ∧
      ek.call = Call.keypair ∧
      sentinel_at ek.post.pk 0 = [0x01, 0x23, 0x45, 0x67, 0x89, 0xAB, 0xCD, 0x00] ∧
      ¬ sentinels_intact clobber_scheme ek.post := by
  have hk : ∃ ek, (test_sign clobber_scheme () (sign_locals_zero 4 4 4)).trace[0]? = some ek ∧
      ek.call = Call.keypair ∧
      sentinel_at ek.post.pk 0 = [0x01, 0x23, 0x45, 0x67, 0x89, 0xAB, 0xCD, 0x00] :=
    ⟨_, by rfl, by rfl, by rfl⟩
  obtain ⟨ek, k1, k2, k3⟩ := hk
  refine ⟨clobber_run_ret, ek, k1, k2, k3, ?_⟩
  intro h
  have h1 := h.1
  rw [k3] at h1
  exact absurd h1 (by decide)

/-- C4, amended: the trace of `test_sign` is the run of the scheme's own
functions; if `test_sign` returns 0 then in each of the 15 iterations all
eight sentinels held the pattern in the locals as `crypto_sign_open` left them
(the end-of-iteration check); equivalently, a `crypto_sign_open` call of the
run that leaves a sentinel changed at its return makes `test_sign` return
nonzero. -/
theorem test_sign_zero_sentinels_at_check {W : Type} (S : Scheme W) (w : W) (l : SignLocals) :
    genuine_trace S w (locals_with_sentinels S l) (test_sign S w l).trace ∧
    ((test_sign S w l).ret = 0 →
      ∀ i, i < NTESTS → ∃ eo,
        (test_sign S w l).trace[3 * i + 2]? = some eo ∧ eo.iter = i ∧
        eo.call = Call.sign_open eo.pre.smlen ∧
        eo.post = { eo.pre with
          sm := (S.crypto_sign_open eo.wpre eo.pre.sm 8 eo.pre.mlen eo.pre.smlen
            eo.pre.pk 8).sm,
          mlen := (S.crypto_sign_open eo.wpre eo.pre.sm 8 eo.pre.mlen eo.pre.smlen
            eo.pre.pk 8).mlen,
          pk := (S.crypto_sign_open eo.wpre eo.pre.sm 8 eo.pre.mlen eo.pre.smlen
            eo.pre.pk 8).pk } ∧
        sentinels_intact S eo.post) ∧
    (∀ e ∈ (test_sign S w l).trace, e.call.isOpen = true → e.is_call S ∧
      (¬ sentinels_intact S e.post → (test_sign S w l).ret ≠ 0)) := by
  have hok := test_sign_run_ok S w l
  have hg := test_sign_trace_genuine S w l
  refine ⟨hg, ?_, ?_⟩
  · intro h i hi
    obtain ⟨ek, es, eo, -, -, h2, -, -, -, hs⟩ := (run_ok_zero_iff S _ hok).1 h i hi
    have s2 := hok.2.1 _ _ h2
    have c2 : eo.call = Call.sign_open eo.pre.smlen := s2.2.2.2 (by omega)
    refine ⟨eo, h2, ?_, c2, (is_call_open c2 (hg.2.1 _ eo h2)).2.2, hs⟩
    rw [s2.1]; omega
  · intro e he ho
    obtain ⟨j, hj, rfl⟩ := List.getElem_of_mem he
    refine ⟨hg.2.1 j _ (List.getElem?_eq_getElem hj), ?_⟩
    intro hs hz
    exact hs (((hok.2.2.1.1 hz).2 _ he).2 ho)

theorem test_sign_zero_sentinels_at_check_witness :
    (test_sign clobber_scheme () (sign_locals_zero 4 4 4)).ret = 0 ∧
    ∀ i, i < NTESTS → ∃ eo,
      (test_sign clobber_scheme () (sign_locals_zero 4 4 4)).trace[3 * i + 2]? = some eo ∧
      eo.iter = i ∧ eo.call = Call.sign_open eo.pre.smlen ∧
      eo.post = { eo.pre with
        sm := (clobber_scheme.crypto_sign_open eo.wpre eo.pre.sm 8 eo.pre.mlen eo.pre.smlen
          eo.pre.pk 8).sm,
        mlen := (clobber_scheme.crypto_sign_open eo.wpre eo.pre.sm 8 eo.pre.mlen eo.pre.smlen
          eo.pre.pk 8).mlen,
        pk := (clobber_scheme.crypto_sign_open eo.wpre eo.pre.sm 8 eo.pre.mlen eo.pre.smlen
          eo.pre.pk 8).pk } ∧
      sentinels_intact clobber_scheme eo.post :=
  ⟨clobber_run_ret,
   (test_sign_zero_sentinels_at_check clobber_scheme () (sign_locals_zero 4 4 4)).2.1
     clobber_run_ret⟩

/-- C2, the code at the failing input: with a scheme whose `crypto_sign_open`
always returns the positive code 1, `test_wrong_pk` returns 0. -/
theorem test_wrong_pk_passes_positive_code :
    (∀ w sm off mlen smlen pk pkoff,
      (positive_open_scheme.crypto_sign_open w sm off mlen smlen pk pkoff).rc = 1) ∧
    (test_wrong_pk positive_open_scheme () (wrong_pk_locals_zero 4 4 4)).1 = 0 := by
  refine ⟨fun _ _ _ _ _ _ _ => rfl, by rfl⟩

/-- C10, the code at the failing input: with a scheme whose first
`crypto_sign_keypair` call fails and whose `crypto_sign_open` accepts under
every key, `test_sign` returns `-1`, `test_wrong_pk` returns `1`, and `main`
returns 0. -/
theorem main_zero_with_both_tests_failing :
    (test_sign flaky_scheme 0 (sign_locals_zero 4 4 4)).ret = -1 ∧
    (test_wrong_pk flaky_scheme (test_sign flaky_scheme 0 (sign_locals_zero 4 4 4)).world
      (wrong_pk_locals_zero 4 4 4)).1 = 1 ∧
    main flaky_scheme 0 (sign_locals_zero 4 4 4) (wrong_pk_locals_zero 4 4 4) = 0 := by
  refine ⟨flaky_run_ret, by rfl, by rfl⟩

/-! ## Theorems: constant-time compare and select -/

theorem lor_eq_zero_iff (x y : Nat) : x ||| y = 0 ↔ x = 0 ∧ y = 0 := by
  constructor
  · intro h
    have hb : ∀ i, (x.testBit i || y.testBit i) = false := by
      intro i
      rw [← Nat.testBit_or, h, Nat.zero_testBit]
    constructor
    · apply Nat.eq_of_testBit_eq
      intro i
      have := hb i
      rw [Bool.or_eq_false_iff] at this
      rw [this.1, Nat.zero_testBit]
    · apply Nat.eq_of_testBit_eq
      intro i
      have := hb i
      rw [Bool.or_eq_false_iff] at this
      rw [this.2, Nat.zero_testBit]
  · rintro ⟨rfl, rfl⟩
    rfl

theorem verify_loop_eq_zero (a b : List Nat) (n i r : Nat) :
    verify_loop a b n i r = 0 ↔
      r = 0 ∧ ∀ j, j < n → a.getD (i + j) 0 = b.getD (i + j) 0 := by
  induction n generalizing i r with
  | zero => simp [verify_loop]
  | succ n ih =>
    unfold verify_loop
    rw [ih, lor_eq_zero_iff, Nat.xor_eq_zero]
    constructor
    · rintro ⟨⟨hr, h0⟩, h⟩
      refine ⟨hr, ?_⟩
      intro j hj
      cases j with
      | zero => simpa using h0
      | succ j =>
        have := h j (by omega)
        have e : i + 1 + j = i + (j + 1) := by omega
        rw [e] at this; exact this
    · rintro ⟨hr, h⟩
      refine ⟨⟨hr, by simpa using h 0 (by omega)⟩, ?_⟩
      intro j hj
      have := h (j + 1) (by omega)
      have e : i + 1 + j = i + (j + 1) := by omega
      rw [e]; exact this

theorem getD_all_eq_iff (len : Nat) (a b : List Nat) (ha : a.length = len)
    (hb : b.length = len) :
    (∀ j, j < len → a.getD j 0 = b.getD j 0) ↔ a = b := by
  constructor
  · intro h
    apply List.ext_getElem (by rw [ha, hb])
    intro j h1 h2
    have := h j (by omega)
    rw [List.getD_eq_getElem?_getD, List.getD_eq_getElem?_getD,
      List.getElem?_eq_getElem h1, List.getElem?_eq_getElem h2] at this
    simpa using this
  · rintro rfl j _
    rfl

/-- C5: for buffers `a`, `b` of length `len`, the OR-of-XORs accumulation
`PQCLEAN_KYBER1024_AVX2_verify a b len` is 0 if and only if `a = b`; changing
the single byte at any position `i < len` gives a nonzero result. -/
theorem verify_zero_iff_identical (len : Nat) (a b : List Nat) (ha : a.length = len)
    (hb : b.length = len) :
    (PQCLEAN_KYBER1024_AVX2_verify a b len = 0 ↔ a = b) ∧
    (∀ i v, i < len → v ≠ a.getD i 0 →
      PQCLEAN_KYBER1024_AVX2_verify a (a.set i v) len ≠ 0) := by
  have key : ∀ c : List Nat, c.length = len →
      (PQCLEAN_KYBER1024_AVX2_verify a c len = 0 ↔ a = c) := by
    intro c hc
    unfold PQCLEAN_KYBER1024_AVX2_verify
    rw [Int.natCast_eq_zero, verify_loop_eq_zero, ← getD_all_eq_iff len a c ha hc]
    simp
  refine ⟨key b hb, ?_⟩
  intro i v hi hv h
  have hs : (a.set i v).length = len := by rw [List.length_set, ha]
  have e := (key _ hs).1 h
  have : a.getD i 0 = (a.set i v).getD i 0 := by rw [← e]
  rw [List.getD_eq_getElem?_getD (a.set i v), List.getElem?_set_self (by omega)] at this
  exact hv (by simpa using this.symm)

theorem verify_zero_iff_identical_witness :
    [1, 2, 3].length = 3 ∧ [1, 2, 4].length = 3 ∧
    (PQCLEAN_KYBER1024_AVX2_verify [1, 2, 3] [1, 2, 4] 3 = 0 ↔ [1, 2, 3] = [1, 2, 4]) ∧
    PQCLEAN_KYBER1024_AVX2_verify [1, 2, 3] ([1, 2, 3].set 2 4) 3 ≠ 0 :=
  ⟨rfl, rfl, (verify_zero_iff_identical 3 [1, 2, 3] [1, 2, 4] rfl rfl).1,
   (verify_zero_iff_identical 3 [1, 2, 3] [1, 2, 4] rfl rfl).2 2 4 (by decide) (by decide)⟩

theorem cmov_byte_select (d s : Nat) (hd : d < 256) (hs : s < 256) :
    d ^^^ ((d ^^^ s) &&& 255) = s := by
  have h : d ^^^ s < 2 ^ 8 := Nat.xor_lt_two_pow (by simpa using hd) (by simpa using hs)
  have e : (d ^^^ s) &&& 255 = d ^^^ s := Nat.and_pow_two_sub_one_of_lt_two_pow h
  rw [e, ← Nat.xor_assoc, Nat.xor_self, Nat.zero_xor]

theorem cmov_byte_keep (d s : Nat) : d ^^^ ((d ^^^ s) &&& 0) = d := by
  simp

theorem cmov_loop_keep (x : List Nat) (n i : Nat) (r : List Nat) :
    cmov_loop x 0 n i r = r := by
  induction n generalizing i r with
  | zero => rfl
  | succ n ih =>
    unfold cmov_loop
    rw [ih, cmov_byte_keep]
    apply List.ext_getElem?
    intro k
    rw [List.getElem?_set]
    split
    · rename_i hik
      subst hik
      split
      · rename_i hl
        rw [List.getD_eq_getElem?_getD, List.getElem?_eq_getElem hl]; simp
      · rename_i hl
        rw [List.getElem?_eq_none (by omega)]
    · rfl

theorem cmov_loop_length (x : List Nat) (mask n i : Nat) (r : List Nat) :
    (cmov_loop x mask n i r).length = r.length := by
  induction n generalizing i r with
  | zero => rfl
  | succ n ih => unfold cmov_loop; rw [ih, List.length_set]

theorem cmov_loop_select_getD (x : List Nat) (n i : Nat) (r : List Nat) (k : Nat)
    (hr : ∀ v ∈ r, v < 256) (hx : ∀ v ∈ x, v < 256) (hlen : x.length = r.length)
    (hin : i + n ≤ r.length) :
    (cmov_loop x 255 n i r).getD k 0 =
      if i ≤ k ∧ k < i + n then x.getD k 0 else r.getD k 0 := by
  induction n generalizing i r with
  | zero =>
    have c : ¬ (i ≤ k ∧ k < i + 0) := by omega
    simp only [cmov_loop, c, if_false]
  | succ n ih =>
    unfold cmov_loop
    have hi : i < r.length := by omega
    have hix : i < x.length := by omega
    have hbyte : r.getD i 0 ^^^ ((r.getD i 0 ^^^ x.getD i 0) &&& 255) = x.getD i 0 := by
      apply cmov_byte_select
      · rw [List.getD_eq_getElem?_getD, List.getElem?_eq_getElem hi]
        exact hr _ (List.getElem_mem _)
      · rw [List.getD_eq_getElem?_getD, List.getElem?_eq_getElem hix]
        exact hx _ (List.getElem_mem _)
    rw [hbyte]
    have hx0 : x.getD i 0 < 256 := by
      rw [List.getD_eq_getElem?_getD, List.getElem?_eq_getElem hix]
      exact hx _ (List.getElem_mem _)
    rw [ih (i + 1) (r.set i (x.getD i 0))]
    · by_cases hk : k = i
      · subst hk
        have c1 : ¬ (k + 1 ≤ k ∧ k < k + 1 + n) := by omega
        have c2 : k ≤ k ∧ k < k + (n + 1) := by omega
        rw [if_neg c1, if_pos c2, List.getD_eq_getElem?_getD (r.set k _),
          List.getElem?_set_self hi]
        rfl
      · have hset : (r.set i (x.getD i 0)).getD k 0 = r.getD k 0 := by
          rw [List.getD_eq_getElem?_getD (r.set i (x.getD i 0)), List.getD_eq_getElem?_getD r,
            List.getElem?_set_ne (Ne.symm hk)]
        rw [hset]
        by_cases c : i + 1 ≤ k ∧ k < i + 1 + n
        · have c2 : i ≤ k ∧ k < i + (n + 1) := by omega
          rw [if_pos c, if_pos c2]
        · have c2 : ¬ (i ≤ k ∧ k < i + (n + 1)) := by omega
          rw [if_neg c, if_neg c2]
    · intro v hv
      rcases List.mem_or_eq_of_mem_set hv with h | h
      · exact hr v h
      · rw [h]; exact hx0
    · rw [List.length_set]; exact hlen
    · rw [List.length_set]; omega

theorem cmov_select (r x : List Nat) (hr : ∀ v ∈ r, v < 256) (hx : ∀ v ∈ x, v < 256)
    (hlen : x.length = r.length) :
    cmov_loop x 255 r.length 0 r = x := by
  apply List.ext_getElem (by rw [cmov_loop_length, hlen])
  intro k h1 h2
  have := cmov_loop_select_getD x r.length 0 r k hr hx hlen (by omega)
  have c : 0 ≤ k ∧ k < 0 + r.length := by omega
  rw [if_pos c, List.getD_eq_getElem?_getD, List.getD_eq_getElem?_getD,
    List.getElem?_eq_getElem h1, List.getElem?_eq_getElem h2] at this
  simpa using this

/-- C6, counterexample: with `dst = src = [7]` and the flag 0, `dst` equals
`src` after `cmov` although the flag is not true-encoded, so "equal if and only
if the flag was true-encoded" fails. -/
theorem cmov_equal_without_flag :
    PQCLEAN_KYBER1024_AVX2_cmov [7] [7] 1 0 = [7] ∧
    ¬ (PQCLEAN_KYBER1024_AVX2_cmov [7] [7] 1 0 = [7] ↔ (0 : Nat) = 1) := by
  decide

/-- C6, amended: for byte buffers `dst`, `src` of length `len` and a flag in
`{0, 1}`: with flag 1 the result of `cmov` is `src`, with flag 0 it is `dst`
unchanged; hence the result equals `src` if and only if the flag is 1 or `dst`
already equalled `src`. -/
theorem cmov_selects (len : Nat) (dst src : List Nat) (flag : Nat)
    (hd : dst.length = len) (hs : src.length = len)
    (hdb : ∀ v ∈ dst, v < 256) (hsb : ∀ v ∈ src, v < 256)
    (hf : flag = 0 ∨ flag = 1) :
    (flag = 1 → PQCLEAN_KYBER1024_AVX2_cmov dst src len flag = src) ∧
    (flag = 0 → PQCLEAN_KYBER1024_AVX2_cmov dst src len flag = dst) ∧
    (PQCLEAN_KYBER1024_AVX2_cmov dst src len flag = src ↔ flag = 1 ∨ dst = src) := by
  have h1 : flag = 1 → PQCLEAN_KYBER1024_AVX2_cmov dst src len flag = src := by
    rintro rfl
    unfold PQCLEAN_KYBER1024_AVX2_cmov
    have : cmov_mask 1 = 255 := by decide
    rw [this, ← hd]
    exact cmov_select dst src hdb hsb (by rw [hs, hd])
  have h0 : flag = 0 → PQCLEAN_KYBER1024_AVX2_cmov dst src len flag = dst := by
    rintro rfl
    unfold PQCLEAN_KYBER1024_AVX2_cmov
    have : cmov_mask 0 = 0 := by decide
    rw [this]
    exact cmov_loop_keep src len 0 dst
  refine ⟨h1, h0, ?_⟩
  rcases hf with hf | hf
  · rw [h0 hf]
    constructor
    · intro h; exact Or.inr h
    · rintro (h | h)
      · omega
      · exact h
  · rw [h1 hf]
    exact ⟨fun _ => Or.inl hf, fun _ => rfl⟩

theorem cmov_selects_witness :
    PQCLEAN_KYBER1024_AVX2_cmov [1, 2] [3, 4] 2 1 = [3, 4] ∧
    PQCLEAN_KYBER1024_AVX2_cmov [1, 2] [3, 4] 2 0 = [1, 2] :=
  ⟨(cmov_selects 2 [1, 2] [3, 4] 1 rfl rfl (by decide) (by decide) (Or.inr rfl)).1 rfl,
   (cmov_selects 2 [1, 2] [3, 4] 0 rfl rfl (by decide) (by decide) (Or.inl rfl)).2.1 rfl⟩

/-! ## Theorems: the 953x3 codec -/

theorem radix_digits_length (R n v : Nat) : (radix_digits R n v).length = n := by
  induction n generalizing v with
  | zero => rfl
  | succ n ih => simp [radix_digits, ih]

theorem radix_digits_lt (R n v : Nat) (hR : 0 < R) : ∀ d ∈ radix_digits R n v, d < R := by
  induction n generalizing v with
  | zero => intro d hd; simp [radix_digits] at hd
  | succ n ih =>
    intro d hd
    simp only [radix_digits, List.mem_cons] at hd
    rcases hd with rfl | hd
    · exact Nat.mod_lt _ hR
    · exact ih _ d hd

theorem radix_value_digits (R n v : Nat) :
    radix_value R (radix_digits R n v) = v % R ^ n := by
  induction n generalizing v with
  | zero => simp [radix_digits, radix_value, Nat.mod_one]
  | succ n ih =>
    simp only [radix_digits, radix_value]
    rw [ih, Nat.pow_succ', Nat.mod_mul]

theorem radix_value_lt (R : Nat) (ds : List Nat) (h : ∀ d ∈ ds, d < R) :
    radix_value R ds < R ^ ds.length := by
  induction ds with
  | nil => simp [radix_value]
  | cons d ds ih =>
    have hd : d < R := h d (List.mem_cons_self _ _)
    have hv := ih (fun x hx => h x (List.mem_cons_of_mem _ hx))
    simp only [radix_value, List.length_cons, Nat.pow_succ]
    have : R * radix_value R ds + R ≤ R * R ^ ds.length := by
      have := Nat.mul_le_mul_left R (Nat.succ_le_of_lt hv)
      rw [Nat.mul_succ] at this
      exact this
    rw [Nat.mul_comm (R ^ ds.length) R]
    omega

theorem radix_digits_value (R : Nat) (ds : List Nat) (h : ∀ d ∈ ds, d < R) :
    radix_digits R ds.length (radix_value R ds) = ds := by
  induction ds with
  | nil => rfl
  | cons d ds ih =>
    have hd : d < R := h d (List.mem_cons_self _ _)
    have hR : 0 < R := by omega
    have hv := ih (fun x hx => h x (List.mem_cons_of_mem _ hx))
    simp only [radix_value, List.length_cons, radix_digits]
    have e1 : (d + R * radix_value R ds) % R = d := by
      rw [Nat.add_mul_mod_self_left]; exact Nat.mod_eq_of_lt hd
    have e2 : (d + R * radix_value R ds) / R = radix_value R ds := by
      rw [Nat.add_mul_div_left _ _ hR, Nat.div_eq_of_lt hd, Nat.zero_add]
    rw [e1, e2, hv]

theorem pow_953_le :
    RADIX ^ PQCLEAN_NTRULPR953_AVX2_crypto_encode_953x3_ITEMS ≤
      256 ^ PQCLEAN_NTRULPR953_AVX2_crypto_encode_953x3_STRBYTES := by
  unfold RADIX PQCLEAN_NTRULPR953_AVX2_crypto_encode_953x3_ITEMS
    PQCLEAN_NTRULPR953_AVX2_crypto_encode_953x3_STRBYTES
  norm_num

/-- C7: for every array `d` of 953 digits below 3, the encoder yields 239
bytes and decoding them gives `d` back, digit for digit. -/
theorem decode_encode_953x3 (d : List Nat)
    (hl : d.length = PQCLEAN_NTRULPR953_AVX2_crypto_encode_953x3_ITEMS)
    (hd : ∀ x ∈ d, x < RADIX) :
    (PQCLEAN_NTRULPR953_AVX2_crypto_encode_953x3 d).length = 239 ∧
    (∀ b ∈ PQCLEAN_NTRULPR953_AVX2_crypto_encode_953x3 d, b < 256) ∧
    crypto_decode_953x3 (PQCLEAN_NTRULPR953_AVX2_crypto_encode_953x3 d) = d := by
  unfold crypto_decode_953x3 PQCLEAN_NTRULPR953_AVX2_crypto_encode_953x3
  refine ⟨radix_digits_length _ _ _, radix_digits_lt _ _ _ (by decide), ?_⟩
  have hv := radix_value_lt RADIX d hd
  rw [hl] at hv
  have hfit : radix_value RADIX d < 256 ^ PQCLEAN_NTRULPR953_AVX2_crypto_encode_953x3_STRBYTES :=
    Nat.lt_of_lt_of_le hv pow_953_le
  rw [radix_value_digits, Nat.mod_eq_of_lt hfit, ← hl]
  exact radix_digits_value RADIX d hd

theorem cycling_digits_length :
    cycling_digits.length = PQCLEAN_NTRULPR953_AVX2_crypto_encode_953x3_ITEMS := by
  simp [cycling_digits]

theorem cycling_digits_lt : ∀ x ∈ cycling_digits, x < RADIX := by
  intro x hx
  simp only [cycling_digits, List.mem_map] at hx
  obtain ⟨i, -, rfl⟩ := hx
  exact Nat.mod_lt _ (by decide)

theorem cycling_digits_getD (i : Nat) (hi : i < 953) : cycling_digits.getD i 0 = i % 3 := by
  unfold cycling_digits PQCLEAN_NTRULPR953_AVX2_crypto_encode_953x3_ITEMS
  rw [List.getD_eq_getElem?_getD, List.getElem?_map, List.getElem?_range hi]
  rfl

theorem decode_encode_953x3_witness :
    cycling_digits.length = 953 ∧ (∀ x ∈ cycling_digits, x < 3) ∧
    (∀ i, i < 953 → cycling_digits.getD i 0 = i % 3) ∧
    (PQCLEAN_NTRULPR953_AVX2_crypto_encode_953x3 cycling_digits).length = 239 ∧
    crypto_decode_953x3 (PQCLEAN_NTRULPR953_AVX2_crypto_encode_953x3 cycling_digits) =
      cycling_digits :=
  ⟨cycling_digits_length, cycling_digits_lt, cycling_digits_getD,
   (decode_encode_953x3 cycling_digits cycling_digits_length cycling_digits_lt).1,
   (decode_encode_953x3 cycling_digits cycling_digits_length cycling_digits_lt).2.2⟩

/-- C1, counterexample: `3^953 - 1` already fits in `STRBYTES - 1 = 238` bytes,
so 239 is not the smallest sufficient length. -/
theorem strbytes_953x3_not_minimal :
    RADIX ^ PQCLEAN_NTRULPR953_AVX2_crypto_encode_953x3_ITEMS - 1 <
      256 ^ (PQCLEAN_NTRULPR953_AVX2_crypto_encode_953x3_STRBYTES - 1) := by
  unfold RADIX PQCLEAN_NTRULPR953_AVX2_crypto_encode_953x3_ITEMS
    PQCLEAN_NTRULPR953_AVX2_crypto_encode_953x3_STRBYTES
  norm_num

/-- C1, amended: `3^953 - 1` fits in `STRBYTES = 239` bytes; the lengths `n`
in which it fits are exactly those with `189 ≤ n`; `STRBYTES` is
`ceil(ITEMS / 4)`; and an item is one byte. -/
theorem strbytes_953x3_sufficient :
    RADIX ^ PQCLEAN_NTRULPR953_AVX2_crypto_encode_953x3_ITEMS - 1 <
      256 ^ PQCLEAN_NTRULPR953_AVX2_crypto_encode_953x3_STRBYTES ∧
    (∀ n, RADIX ^ PQCLEAN_NTRULPR953_AVX2_crypto_encode_953x3_ITEMS - 1 < 256 ^ n ↔ 189 ≤ n) ∧
    PQCLEAN_NTRULPR953_AVX2_crypto_encode_953x3_STRBYTES =
      (PQCLEAN_NTRULPR953_AVX2_crypto_encode_953x3_ITEMS + 3) / 4 ∧
    PQCLEAN_NTRULPR953_AVX2_crypto_encode_953x3_ITEMBYTES = 1 := by
  unfold RADIX PQCLEAN_NTRULPR953_AVX2_crypto_encode_953x3_ITEMS
    PQCLEAN_NTRULPR953_AVX2_crypto_encode_953x3_STRBYTES
  refine ⟨by norm_num, ?_, by norm_num, rfl⟩
  intro n
  have h189 : 3 ^ 953 - 1 < 256 ^ 189 := by norm_num
  have h188 : 256 ^ 188 ≤ 3 ^ 953 - 1 := by norm_num
  constructor
  · intro h
    by_contra hn
    have hle : 256 ^ n ≤ 256 ^ 188 := Nat.pow_le_pow_right (by norm_num) (by omega)
    omega
  · intro h
    exact Nat.lt_of_lt_of_le h189 (Nat.pow_le_pow_right (by norm_num) h)

end PQClean
